import Mathlib

/-!
Verification development for the IRC client protocol core of the halloy
repository (files `src/data/src/client.rs` and `src/data/src/config/server.rs`).

The Rust code is shallowly embedded: each Lean definition mirrors one Rust
item and keeps its name where Lean allows it.  External collaborators that are
not part of the repository sources (the wire parser `irc::proto`, the
`crate::user` / `crate::isupport` / `crate::buffer` modules, `base64`,
`chrono`, hashing containers) are modelled by ordinary Lean data:

* `HashMap`/`BTreeMap` become association lists with `HashMap::insert`
  (replace), `remove` (erase first binding) and `get` (first binding) semantics;
* `HashSet<User>` (identity = nickname) becomes a `List User` with
  take/insert/remove by nickname, `insert` keeping an already present element
  exactly like `HashSet::insert`;
* `Instant::now()` becomes the `clock` field of the client;
* the outbound `mpsc::Sender` handle becomes the `sent : List Outbound` field,
  `try_send` appends to it (send failures are transport events outside the
  model);
* byte lengths (`str::len`) become `strBytes`, the UTF-8 byte count.

Only the commands that the verified claims concern are represented in the
`Command` type; the remaining arms of `Client::handle` (PRIVMSG/NOTICE, WHO
replies, MODE, TOPIC, ISUPPORT, ...) touch none of the state components the
claims are about and are outside the modelled command set.
-/

namespace Halloy

/-! ### Generic helpers -/

/-- UTF-8 byte size of a string, mirroring Rust `str::len`. -/
def strBytes (s : String) : Nat :=
  (s.toList.map (fun ch => ch.utf8Size)).sum

/-- Sum of a per-item byte contribution, as accumulated by the shaper's
running counter. -/
def sumBy {α : Type} (contrib : α → Nat) (l : List α) : Nat :=
  (l.map contrib).sum

/-- Largest per-item byte contribution in a list. -/
def maxBy {α : Type} (contrib : α → Nat) (l : List α) : Nat :=
  l.foldr (fun x n => max (contrib x) n) 0

/-- Join a list of strings with a separator, mirroring `Itertools::join`. -/
def joinSep (sep : String) : List String → String
  | [] => ""
  | [x] => x
  | x :: y :: xs => x ++ sep ++ joinSep sep (y :: xs)

/-- First binding for a key in an association list (`HashMap::get`). -/
def alookup {α : Type} (l : List (String × α)) (k : String) : Option α :=
  match l with
  | [] => none
  | (k', v) :: rest => if k' = k then some v else alookup rest k

/-- Remove the first binding for a key (`HashMap::remove`). -/
def aerase {α : Type} (l : List (String × α)) (k : String) : List (String × α) :=
  match l with
  | [] => []
  | (k', v) :: rest => if k' = k then rest else (k', v) :: aerase rest k

/-- Insert or replace a binding (`HashMap::insert` / `BTreeMap::insert`). -/
def ainsert {α : Type} (l : List (String × α)) (k : String) (v : α) :
    List (String × α) :=
  match l with
  | [] => [(k, v)]
  | (k', v') :: rest => if k' = k then (k, v) :: rest else (k', v') :: ainsert rest k v

/-- Update the binding for a key in place if present (`HashMap::get_mut`). -/
def aupdate {α : Type} (l : List (String × α)) (k : String) (f : α → α) :
    List (String × α) :=
  match l with
  | [] => []
  | (k', v) :: rest => if k' = k then (k', f v) :: rest else (k', v) :: aupdate rest k f

/-- Whether one character list occurs at the start of another. -/
def listLeads : List Char → List Char → Bool
  | [], _ => true
  | _ :: _, [] => false
  | a :: as, b :: bs => a == b && listLeads as bs

/-- Whether `needle` occurs as a contiguous substring of `hay`
(Rust `str::contains`). -/
def strHasSub (hay needle : String) : Bool :=
  go needle.toList hay.toList
where
  go (n : List Char) : List Char → Bool
    | [] => n.isEmpty
    | c :: cs => listLeads n (c :: cs) || go n cs

/-- Whether a string starts with the given string (Rust `str::starts_with`). -/
def strStarts (s pre : String) : Bool :=
  listLeads pre.toList s.toList

/-- Split at every space character, mirroring Rust `str::split(' ')` (and
`String.splitOn " "`): the empty string yields `[""]`, adjacent separators
yield empty pieces. -/
def splitSpaces (s : String) : List String :=
  go s.toList []
where
  go : List Char → List Char → List String
    | [], acc => [String.mk acc.reverse]
    | c :: cs, acc =>
      if c = ' ' then String.mk acc.reverse :: go cs []
      else go cs (c :: acc)

/-! ### Base64 (standard engine of the `base64` crate, used by `Sasl::param`) -/

/-- UTF-8 encoding of a single character as a list of byte values. -/
def charUtf8 (c : Char) : List Nat :=
  let n := c.toNat
  if n < 0x80 then [n]
  else if n < 0x800 then [0xC0 ||| (n >>> 6), 0x80 ||| (n &&& 0x3F)]
  else if n < 0x10000 then
    [0xE0 ||| (n >>> 12), 0x80 ||| ((n >>> 6) &&& 0x3F), 0x80 ||| (n &&& 0x3F)]
  else
    [0xF0 ||| (n >>> 18), 0x80 ||| ((n >>> 12) &&& 0x3F),
     0x80 ||| ((n >>> 6) &&& 0x3F), 0x80 ||| (n &&& 0x3F)]

/-- UTF-8 byte sequence of a string. -/
def strUtf8 (s : String) : List Nat :=
  s.toList.foldr (fun c acc => charUtf8 c ++ acc) []

/-- The standard base64 alphabet. -/
def base64Alphabet : List Char :=
  "ABCDEFGHIJKLMNOPQRSTUVWXYZabcdefghijklmnopqrstuvwxyz0123456789+/".toList

/-- Character for a 6-bit group. -/
def b64Char (n : Nat) : Char := base64Alphabet.getD n 'A'

/-- Base64 of a byte list, three bytes at a time, with `=` padding. -/
def base64Chunks : List Nat → List Char
  | [] => []
  | [a] => [b64Char (a >>> 2), b64Char ((a &&& 3) <<< 4), '=', '=']
  | [a, b] =>
    [b64Char (a >>> 2), b64Char (((a &&& 3) <<< 4) ||| (b >>> 4)),
     b64Char ((b &&& 15) <<< 2), '=']
  | a :: b :: c2 :: rest =>
    b64Char (a >>> 2) :: b64Char (((a &&& 3) <<< 4) ||| (b >>> 4)) ::
    b64Char (((b &&& 15) <<< 2) ||| (c2 >>> 6)) :: b64Char (c2 &&& 63) ::
    base64Chunks rest

/-- Standard base64 encoding of the UTF-8 bytes of a string
(`base64::engine::general_purpose::STANDARD.encode`). -/
def base64Encode (s : String) : String := String.mk (base64Chunks (strUtf8 s))

/-! ### Server configuration (`src/data/src/config/server.rs`)

Only the options consumed by the client core are modelled; transport fields
(port, TLS, proxy, ping) are external.  `PathBuf` is modelled as `String`.
The source field `nick_identify_syntax : Option<IdentifySyntax>` is spelled
`nickIdentifySyntax` here. -/

/-- IdentifySyntax from `config/server.rs`. -/
inductive IdentifySyntax where
  | NickPassword
  | PasswordNick
deriving DecidableEq

/-- Sasl from `config/server.rs`.  `Plain` keeps the resolved `password`
option next to the unresolved `password_file` / `password_command` sources. -/
inductive Sasl where
  | Plain (username : String) (password : Option String)
      (password_file : Option String) (password_command : Option String)
  | External (cert : String) (key : Option String)
deriving DecidableEq

/-- Sasl::command. -/
def Sasl.command : Sasl → String
  | .Plain .. => "PLAIN"
  | .External .. => "EXTERNAL"

/-- Sasl::param.  The source `expect`s the password of a `Plain`
configuration; that panic is modelled as `none` (fallible code returns
`Option`), every non-panicking path returns `some`. -/
def Sasl.param : Sasl → Option String
  | .Plain username password _ _ =>
    password.map (fun pass =>
      base64Encode (username ++ "\x00" ++ username ++ "\x00" ++ pass))
  | .External .. => some "+"

/-- The `Sasl::Plain` values on which `Sasl::param` panics in the source:
password not resolved into the configuration. -/
def Sasl.panicsInParam : Sasl → Prop
  | .Plain _ password _ _ => password = none
  | .External .. => False

instance : DecidablePred Sasl.panicsInParam := by
  intro s
  cases s with
  | Plain u p f c2 => exact (inferInstance : Decidable (p = none))
  | External c2 k => exact (inferInstance : Decidable False)

/-- Server configuration options recognised by the client core
(`config::Server`). -/
structure Config where
  nickname : String
  nick_password : Option String := none
  nickIdentifySyntax : Option IdentifySyntax := none
  alt_nicks : List String := []
  username : Option String := none
  realname : Option String := none
  password : Option String := none
  channels : List String := []
  channel_keys : List (String × String) := []
  should_ghost : Bool := false
  ghost_sequence : List String := []
  umodes : Option String := none
  sasl : Option Sasl := none
  on_connect : List String := []
  who_poll_enabled : Bool := true
  monitor : List String := []
deriving DecidableEq

/-! ### Messages and events (`src/data/src/client.rs` together with the
external `irc::proto` / `crate::message` / `crate::user` types it consumes) -/

/-- IRCv3 message tag (`irc::proto::Tag`). -/
structure Tag where
  key : String
  value : Option String
deriving DecidableEq

/-- The numeric replies the verified claims concern.  The source handles
further numerics (RPL_LOGGEDIN, WHO replies, topic numerics, ...) whose arms
touch none of the state modelled here. -/
inductive NumericCmd where
  | ERR_NICKNAMEINUSE
  | ERR_ERRONEUSNICKNAME
  | RPL_WELCOME
deriving DecidableEq

/-- The commands of `irc::proto::Command` that the claims concern.  `Unknown`
is the source's `Command::Unknown`; commands with source arms that are outside
the model (PRIVMSG, NOTICE, MODE, TOPIC, ...) are not representable. -/
inductive Command where
  | BATCH (arg : String) (params : List String)
  | CAP (target : Option String) (sub : String) (a : Option String) (b : Option String)
  | AUTHENTICATE (param : String)
  | NICK (nick : String)
  | QUIT (comment : Option String)
  | JOIN (channel : String) (accountname : Option String)
  | PART (channel : String) (reason : Option String)
  | KICK (channel : String) (victim : String) (comment : Option String)
  | WHOIS (target : Option String) (nick : String)
  | Numeric (num : NumericCmd) (args : List String)
  | Unknown (cmd : String) (args : List String)
deriving DecidableEq

/-- Whether a command is a BATCH command. -/
def Command.isBATCH : Command → Bool
  | .BATCH .. => true
  | _ => false

/-- A user as stored in channel sets (`crate::user::User`).  Set identity is
the nickname; the remaining attributes ride along. -/
structure User where
  nickname : String
  username : Option String := none
  hostname : Option String := none
  accountname : Option String := none
  away : Bool := false
deriving DecidableEq

/-- A decoded inbound message (`message::Encoded`).  `user` is the source
prefix (`message.user()`); `serverTime` is `server_time(&message)` (the
`time` tag or receipt time), an abstract timestamp here. -/
structure Encoded where
  tags : List Tag
  command : Command
  user : Option User := none
  serverTime : Nat := 0
deriving DecidableEq

/-- Context attached to an outbound label (`client.rs`).  `buffer::Upstream`
is external and opaque; it is modelled as a `String` identifier. -/
inductive Context where
  | Buffer (buffer : String)
  | Whois (buffer : String)
deriving DecidableEq

/-- Context::new. -/
def Context.new (message : Encoded) (buffer : String) : Context :=
  match message.command with
  | .WHOIS .. => .Whois buffer
  | _ => .Buffer buffer

/-- Context::is_whois. -/
def Context.is_whois : Context → Bool
  | .Whois _ => true
  | .Buffer _ => false

/-- Context::buffer. -/
def Context.buffer : Context → String
  | .Buffer buffer => buffer
  | .Whois buffer => buffer

/-- Broadcast events.  Only the variants reachable in the modelled command
set are listed (`Invite` and `ChangeHost` come from unmodelled arms). -/
inductive Broadcast where
  | Quit (user : User) (comment : Option String) (channels : List String)
      (sent_time : Nat)
  | Nickname (old_user : User) (new_nick : String) (ourself : Bool)
      (channels : List String) (sent_time : Nat)
deriving DecidableEq

/-- Events returned by `receive` (the variants reachable in the modelled
command set). -/
inductive Event where
  | Single (msg : Encoded) (nick : String)
  | WithTarget (msg : Encoded) (nick : String) (target : String)
  | Broadcast (b : Broadcast)
  | JoinedChannel (channel : String)
deriving DecidableEq

/-- A batch being accumulated (`client.rs` `Batch`). -/
structure Batch where
  context : Option Context
  events : List Event
deriving DecidableEq

/-- Batch::new. -/
def Batch.new (context : Option Context) : Batch := ⟨context, []⟩

/-- Outbound messages pushed on the handle (`proto::Message` values built by
the `command!` macro, plus the re-encoded messages of `Client::send`). -/
inductive Outbound where
  | CapLs302
  | Pass (pass : String)
  | NickMsg (nick : String)
  | UserMsg (user : String) (real : String)
  | CapReq (caps : String)
  | CapEnd
  | Authenticate (param : String)
  | PrivMsgOut (target : String) (text : String)
  | ModeMsg (target : String) (modes : String)
  | JoinMsg (channels : String) (keys : Option String)
  | MonitorAdd (targets : String)
  | WhoMsg (channel : String)
  | WhoXMsg (channel : String) (fields : String) (token : Nat)
  | QuitMsg (reason : Option String)
  | RawOnConnect (line : String)
  | EncodedMsg (m : Encoded)
deriving DecidableEq

/-- Per-channel WHO state. -/
inductive WhoStatus where
  | Requested (at_ : Nat) (token : Option Nat)
  | Receiving (token : Option Nat)
  | Done (at_ : Nat)
deriving DecidableEq

/-- Channel topic.  `message::Content` is external; topic text is a raw
string here. -/
structure Topic where
  content : Option String := none
  who : Option String := none
  time : Option Nat := none
deriving DecidableEq

/-- Per-channel state. -/
structure Channel where
  users : List User := []
  last_who : Option WhoStatus := none
  topic : Topic := {}
  names_init : Bool := false
deriving DecidableEq

/-- Registration progression, ordered Start < List < Req < Sasl < End. -/
inductive RegistrationStep where
  | Start
  | List
  | Req
  | Sasl
  | End
deriving DecidableEq

/-- Rank realising the derived `Ord` of the source enum. -/
def RegistrationStep.rank : RegistrationStep → Nat
  | .Start => 0
  | .List => 1
  | .Req => 2
  | .Sasl => 3
  | .End => 4

/-! ### User-set operations (HashSet with nickname identity) -/

/-- HashSet::remove — drop the (unique) element with this nickname. -/
def usersRemove (us : List User) (u : User) : List User :=
  match us with
  | [] => []
  | x :: xs => if x.nickname = u.nickname then xs else x :: usersRemove xs u

/-- HashSet::insert — keep the set unchanged if an element with this
nickname is already present. -/
def usersInsert (us : List User) (u : User) : List User :=
  if us.any (fun x => x.nickname = u.nickname) then us else u :: us

/-- HashSet::take — remove and return the element with this nickname. -/
def usersTake (us : List User) (u : User) : Option User × List User :=
  match us with
  | [] => (none, [])
  | x :: xs =>
    if x.nickname = u.nickname then (some x, xs)
    else
      let (found, rest) := usersTake xs u
      (found, x :: rest)

/-- The source's take-modify-reinsert idiom on a channel's user set. -/
def usersTakeInsert (us : List User) (u : User) (f : User → User) : List User :=
  match usersTake us u with
  | (some found, rest) => usersInsert rest (f found)
  | (none, _) => us

/-! ### Client state (`Client` in `src/data/src/client.rs`)

The `server` identity and the `highlight_blackout` state are omitted: the
former is opaque and the latter is only read by the PRIVMSG/NOTICE arm and
`tick`, which are outside the modelled command set.  The ISUPPORT table is
modelled by the two entries the modelled arms consult (WHOX presence and
CHANTYPES). -/

structure Client where
  config : Config
  sent : List Outbound := []
  alt_nick : Option Nat := none
  resolved_nick : Option String := none
  chanmap : List (String × Channel) := []
  channels : List String := []
  users : List (String × List User) := []
  labels : List (String × Context) := []
  batches : List (String × Batch) := []
  reroute_responses_to : Option String := none
  registration_step : RegistrationStep := .Start
  listed_caps : List String := []
  supports_labels : Bool := false
  supports_away_notify : Bool := false
  supports_account_notify : Bool := false
  supports_extended_join : Bool := false
  supports_read_marker : Bool := false
  registration_required_channels : List String := []
  isupportWhox : Bool := false
  isupportChantypes : Option (List Char) := none
  clock : Nat := 0
deriving DecidableEq

namespace Client

/-- Push one message on the outbound handle (`try_send`). -/
def push (c : Client) (m : Outbound) : Client := { c with sent := c.sent ++ [m] }

/-- Push a list of messages in order. -/
def pushAll (c : Client) (ms : List Outbound) : Client :=
  { c with sent := c.sent ++ ms }

/-- proto::DEFAULT_CHANNEL_PREFIXES (external constant of `irc::proto`). -/
def defaultChantypes : List Char := ['#', '&']

/-- Client::chantypes. -/
def chantypes (c : Client) : List Char :=
  c.isupportChantypes.getD defaultChantypes

/-- Client::is_channel via proto::is_channel: the target starts with one of
the chantype characters. -/
def is_channel (c : Client) (target : String) : Bool :=
  match target.toList with
  | [] => false
  | ch :: _ => c.chantypes.contains ch

/-- Client::nickname — the resolved nick, or the configured one before
resolution. -/
def nickname (c : Client) : String :=
  c.resolved_nick.getD c.config.nickname

/-- The cached per-channel user view (`Client::users`). -/
def usersOf (c : Client) (channel : String) : List User :=
  (alookup c.users channel).getD []

/-- Client::user_channels — reads the cached `channels` / `users` views. -/
def user_channels (c : Client) (nick : String) : List String :=
  c.channels.filter (fun channel =>
    (c.usersOf channel).any (fun user => user.nickname = nick))

/-- Client::compare_channels.  Rust's byte-wise `str::cmp` is modelled by
Lean's character-wise `compare`, which agrees on ASCII channel names. -/
def compare_channels (c : Client) (a b : String) : Ordering :=
  match a.toList, b.toList with
  | a0 :: _, b0 :: _ =>
    if c.chantypes.contains a0 && c.chantypes.contains b0 then
      let ord := compare (String.mk (a.toList.dropWhile (· == a0)))
                         (String.mk (b.toList.dropWhile (· == b0)))
      if ord ≠ Ordering.eq then ord else compare a b
    else compare a b
  | _, _ => compare a b

end Client

/-- Insertion sort by a boolean "not after" relation, modelling the stable
`sorted_by` of the source (only membership matters to the claims). -/
def sortLeBy {α : Type} (le : α → α → Bool) : List α → List α
  | [] => []
  | x :: xs => insertLe le x (sortLeBy le xs)
where
  insertLe (le : α → α → Bool) (x : α) : List α → List α
    | [] => [x]
    | y :: ys => if le x y then x :: y :: ys else y :: insertLe le x ys

namespace Client

/-- The sorted channel list that `sync` installs. -/
def syncChannelsOf (c : Client) : List String :=
  sortLeBy (fun a b => c.compare_channels a b ≠ Ordering.gt)
    (c.chanmap.map Prod.fst)

/-- The sorted per-channel user views that `sync` installs.  The `Ord` of
`crate::user::User` is external; it is modelled as nickname order. -/
def syncUsersOf (c : Client) : List (String × List User) :=
  c.chanmap.map (fun p =>
    (p.1, sortLeBy (fun u v => decide (u.nickname ≤ v.nickname)) p.2.users))

/-- Client::sync — rebuild the cached `channels` and `users` views from
`chanmap`. -/
def sync (c : Client) : Client :=
  { c with channels := c.syncChannelsOf, users := c.syncUsersOf }

end Client

/-! ### Outbound shaper (`group_capability_requests`, `group_joins`,
`group_monitors`) -/

/-- proto::format::BYTE_LIMIT (external constant, the 512-byte IRC line
limit). -/
def BYTE_LIMIT : Nat := 512

/-- The `scan`/`into_group_map` bucketing of the source: each item gets chunk
index `cumulative / maxLen` where the cumulative counter adds `contrib` per
item; items with the same chunk index form one message.  The counter is
non-decreasing, so equal chunk indices are consecutive and grouping
consecutive runs is the group-map. -/
def bucketsAux {α : Type} (contrib : α → Nat) (maxLen : Nat) :
    List α → Nat → Nat → List α → List (List α)
  | [], _, _, cur => [cur.reverse]
  | x :: xs, count, curChunk, cur =>
    let cnew := count + contrib x
    let k := cnew / maxLen
    if k = curChunk then bucketsAux contrib maxLen xs cnew curChunk (x :: cur)
    else cur.reverse :: bucketsAux contrib maxLen xs cnew k [x]

/-- Bucket a list of items by the running-counter chunk index. -/
def buckets {α : Type} (contrib : α → Nat) (maxLen : Nat) : List α → List (List α)
  | [] => []
  | x :: xs =>
    let c := contrib x
    bucketsAux contrib maxLen xs c (c / maxLen) [x]

/-- Byte budget of a CAP REQ message. -/
def capReqMaxLen : Nat := BYTE_LIMIT - strBytes "CAP REQ :\r\n"

/-- group_capability_requests. -/
def group_capability_requests (capabilities : List String) : List Outbound :=
  (buckets (fun capability => strBytes capability + 1) capReqMaxLen
    capabilities).map (fun caps => .CapReq (joinSep " " caps))

/-- Byte budget of a JOIN message. -/
def joinMaxLen : Nat := BYTE_LIMIT - strBytes "JOIN \r\n"

/-- group_joins — partition into keyless and keyed channels (preserving
order inside each part, as `partition_map` does) and bucket each part. -/
def group_joins (channels : List String) (keys : List (String × String)) :
    List Outbound :=
  let without_keys := channels.filter (fun ch => (alookup keys ch).isNone)
  let with_keys := channels.filterMap (fun ch =>
    (alookup keys ch).map (fun key => (ch, key)))
  let joins_without_keys :=
    (buckets (fun channel => strBytes channel + 1) joinMaxLen without_keys).map
      (fun chs => Outbound.JoinMsg (joinSep "," chs) none)
  let joins_with_keys :=
    (buckets (fun p => strBytes p.1 + strBytes p.2 + 2) joinMaxLen with_keys).map
      (fun values => Outbound.JoinMsg (joinSep "," (values.map Prod.fst))
        (some (joinSep "," (values.map Prod.snd))))
  joins_without_keys ++ joins_with_keys

/-- Byte budget of a MONITOR + message. -/
def monitorMaxLen : Nat := BYTE_LIMIT - strBytes "MONITOR + \r\n"

/-- group_monitors — truncate to the target limit, then bucket. -/
def group_monitors (targets : List String) (target_limit : Option Nat) :
    List Outbound :=
  let targets := match target_limit with
    | some limit => targets.take limit
    | none => targets
  (buckets (fun target => strBytes target + 1) monitorMaxLen targets).map
    (fun ts => .MonitorAdd (joinSep "," ts))

/-- Serialized byte length of the shaped messages, per the wire format the
source budgets against (`"CAP REQ :<caps>\r\n"`, `"JOIN <chans>[ <keys>]\r\n"`,
`"MONITOR + <targets>\r\n"`). -/
def Outbound.wireBytes : Outbound → Nat
  | .CapReq caps => strBytes "CAP REQ :" + strBytes caps + 2
  | .JoinMsg chs none => strBytes "JOIN " + strBytes chs + 2
  | .JoinMsg chs (some ks) => strBytes "JOIN " + strBytes chs + 1 + strBytes ks + 2
  | .MonitorAdd ts => strBytes "MONITOR + " + strBytes ts + 2
  | _ => 0

/-! ### connect and send -/

namespace Client

/-- Client::connect — CAP LS 302, optional PASS, NICK, USER; step becomes
List.  `try_send` cannot fail in the model, so the `Result` is dropped. -/
def connect (c : Client) : Client :=
  let nick := c.config.nickname
  let user := c.config.username.getD nick
  let real := c.config.realname.getD nick
  let c := c.push .CapLs302
  let c := match c.config.password with
    | some pass => c.push (.Pass pass)
    | none => c
  let c := c.push (.NickMsg nick)
  let c := c.push (.UserMsg user real)
  { c with registration_step := .List }

/-- Client::start_reroute.  Of the reroute-starting commands only WHOIS is
in the modelled command set (WHO/WHOWAS and MODE-on-non-channel are not
representable). -/
def start_reroute (_c : Client) : Command → Bool
  | .WHOIS .. => true
  | _ => false

/-- Client::send.  `generate_label()` draws from the wall clock
(`Posix::now`); the generated label is supplied as an argument. -/
def send (c : Client) (buffer : String) (message : Encoded) (label : String) :
    Client :=
  let (c, message) :=
    if c.supports_labels then
      let context := Context.new message buffer
      ({ c with labels := ainsert c.labels label context },
       { message with tags := [⟨"label", some label⟩] })
    else (c, message)
  let c := { c with reroute_responses_to :=
    if c.start_reroute message.command then some buffer else none }
  c.push (.EncodedMsg message)

end Client

/-! ### Inbound message handling -/

/-- remove_tag — pop the first tag with the given key and return its value
(which may itself be absent). -/
def removeTag (key : String) : List Tag → Option String × List Tag
  | [] => (none, [])
  | t :: ts =>
    if t.key = key then (t.value, ts)
    else ((removeTag key ts).1, t :: (removeTag key ts).2)

/-- stop_reroute — true exactly for the reroute-terminating numerics
(RPL_ENDOFWHO, RPL_ENDOFWHOIS, RPL_ENDOFWHOWAS, ERR_NOSUCHNICK,
ERR_NOSUCHSERVER, ERR_NONICKNAMEGIVEN, ERR_WASNOSUCHNICK,
ERR_NEEDMOREPARAMS, ERR_USERSDONTMATCH, RPL_UMODEIS,
ERR_UMODEUNKNOWNFLAG); none of these is in the modelled numeric set, so the
restriction is constantly false. -/
def stop_reroute (_ : Command) : Bool := false

/-- isupport::WHO_POLL_TOKEN (external constant; its value is opaque). -/
def whoPollToken : Nat := 9

/-- The alt-nick advance of the ERR_NICKNAMEINUSE / ERR_ERRONEUSNICKNAME
arm: a running index steps through `alt_nicks`; stepping past the last entry
clears it, and from the cleared state a further numeric restarts at 0 when
`alt_nicks` is non-empty. -/
def altNickAdvance (alt_nick : Option Nat) (alt_nicks : List String) :
    Option Nat :=
  match alt_nick with
  | some index =>
    if index = alt_nicks.length - 1 then none else some (index + 1)
  | none => if alt_nicks.isEmpty then none else some 0

/-- The capability-request set computed at the CAP LS terminator, as a
function of the accumulated `listed_caps`. -/
def requestedFromLs (listed : List String) : List String :=
  (if listed.contains "invite-notify" then ["invite-notify"] else []) ++
  (if listed.contains "userhost-in-names" then ["userhost-in-names"] else []) ++
  (if listed.contains "away-notify" then ["away-notify"] else []) ++
  (if listed.contains "message-tags" then ["message-tags"] else []) ++
  (if listed.contains "server-time" then ["server-time"] else []) ++
  (if listed.contains "chghost" then ["chghost"] else []) ++
  (if listed.contains "extended-monitor" then ["extended-monitor"] else []) ++
  (if listed.contains "account-notify" then
    ["account-notify"] ++
    (if listed.contains "extended-join" then ["extended-join"] else [])
   else []) ++
  (if listed.contains "batch" then ["batch"] else []) ++
  (if listed.contains "labeled-response" then
    ["labeled-response"] ++
    (if listed.contains "echo-message" then ["echo-message"] else [])
   else []) ++
  (if listed.any (fun cap => strStarts cap "sasl") then ["sasl"] else []) ++
  (if listed.contains "multi-prefix" then ["multi-prefix"] else []) ++
  (if listed.contains "draft/read-marker" then ["draft/read-marker"] else [])

/-- The capability-request set of the CAP NEW arm, as a function of the
already-listed caps and the newly advertised ones. -/
def requestedFromNew (listed new_caps : List String) : List String :=
  (if new_caps.contains "invite-notify" then ["invite-notify"] else []) ++
  (if new_caps.contains "userhost-in-names" then ["userhost-in-names"] else []) ++
  (if new_caps.contains "away-notify" then ["away-notify"] else []) ++
  (if new_caps.contains "message-tags" then ["message-tags"] else []) ++
  (if new_caps.contains "server-time" then ["server-time"] else []) ++
  (if new_caps.contains "chghost" then ["chghost"] else []) ++
  (if new_caps.contains "extended-monitor" then ["extended-monitor"] else []) ++
  (if listed.contains "account-notify" || new_caps.contains "account-notify" then
    (if new_caps.contains "account-notify" then ["account-notify"] else []) ++
    (if new_caps.contains "extended-join" then ["extended-join"] else [])
   else []) ++
  (if new_caps.contains "batch" then ["batch"] else []) ++
  (if listed.contains "labeled-response" || new_caps.contains "labeled-response" then
    (if new_caps.contains "labeled-response" then ["labeled-response"] else []) ++
    (if new_caps.contains "echo-message" then ["echo-message"] else [])
   else []) ++
  (if new_caps.contains "multi-prefix" then ["multi-prefix"] else []) ++
  (if new_caps.contains "draft/read-marker" then ["draft/read-marker"] else [])

namespace Client

/-- The fall-through result of `Client::handle`: a `Single` event carrying
the (tag-stripped) message and the current nickname. -/
def single (c : Client) (message : Encoded) :
    Except String (List Event × Client) :=
  .ok ([.Single message c.nickname], c)

/-- CAP LS arm body after destructuring the chunk arguments. -/
def capLs (c : Client) (message : Encoded) (caps : String)
    (asterisk : Option String) : Except String (List Event × Client) :=
  let c := { c with listed_caps := c.listed_caps ++ splitSpaces caps }
  if asterisk.isNone then
    let requested := requestedFromLs c.listed_caps
    if requested.isEmpty then
      let c := { c with registration_step := .End }
      (c.push .CapEnd).single message
    else
      let c := { c with registration_step := .Req }
      (c.pushAll (group_capability_requests requested)).single message
  else
    c.single message

/-- Shared tail of the ACK/NAK arms: step to End and send CAP END. -/
def capEndStep (c : Client) (message : Encoded) :
    Except String (List Event × Client) :=
  let c := { c with registration_step := .End }
  (c.push .CapEnd).single message

/-- CAP ACK arm body. -/
def capAck (c : Client) (message : Encoded) (capsStr : String) :
    Except String (List Event × Client) :=
  let caps := splitSpaces capsStr
  let c := { c with
    supports_labels := c.supports_labels || caps.contains "labeled-response",
    supports_away_notify := c.supports_away_notify || caps.contains "away-notify",
    supports_account_notify :=
      c.supports_account_notify || caps.contains "account-notify",
    supports_extended_join :=
      c.supports_extended_join || caps.contains "extended-join",
    supports_read_marker :=
      c.supports_read_marker || caps.contains "draft/read-marker" }
  let supports_sasl := caps.any (fun cap => strHasSub cap "sasl")
  match c.config.sasl with
  | some sasl =>
    if supports_sasl then
      let c := { c with registration_step := .Sasl }
      (c.push (.Authenticate sasl.command)).single message
    else
      c.capEndStep message
  | none => c.capEndStep message

/-- CAP NAK arm body. -/
def capNak (c : Client) (message : Encoded) :
    Except String (List Event × Client) :=
  if c.registration_step.rank < RegistrationStep.Sasl.rank then
    c.capEndStep message
  else
    c.single message

/-- CAP NEW arm body. -/
def capNew (c : Client) (message : Encoded) (capsStr : String) :
    Except String (List Event × Client) :=
  let new_caps := splitSpaces capsStr
  let requested := requestedFromNew c.listed_caps new_caps
  let c :=
    if requested.isEmpty then c
    else c.pushAll (group_capability_requests requested)
  let c := { c with listed_caps := c.listed_caps ++ new_caps }
  c.single message

/-- CAP DEL arm body. -/
def capDel (c : Client) (message : Encoded) (capsStr : String) :
    Except String (List Event × Client) :=
  let del_caps := splitSpaces capsStr
  let c := { c with
    supports_labels := c.supports_labels && !del_caps.contains "labeled-response",
    supports_away_notify :=
      c.supports_away_notify && !del_caps.contains "away-notify",
    supports_account_notify :=
      c.supports_account_notify && !del_caps.contains "account-notify",
    supports_extended_join :=
      c.supports_extended_join && !del_caps.contains "extended-join",
    supports_read_marker :=
      c.supports_read_marker && !del_caps.contains "draft/read-marker",
    listed_caps := c.listed_caps.filter (fun cap => !del_caps.contains cap) }
  c.single message

/-- RPL_WELCOME arm body. -/
def rplWelcome (c : Client) (message : Encoded) (args : List String) :
    Except String (List Event × Client) :=
  match args.head? with
  | none => .error "Malformed command"
  | some nick =>
    let c := { c with resolved_nick := some nick }
    let c := match c.config.nick_password with
      | none => c
      | some nick_pass =>
        let c :=
          if c.config.should_ghost && nick ≠ c.config.nickname then
            c.pushAll (c.config.ghost_sequence.map (fun sequence =>
              Outbound.PrivMsgOut "NickServ"
                (sequence ++ " " ++ c.config.nickname ++ " " ++ nick_pass)))
          else c
        match c.config.nickIdentifySyntax with
        | some .PasswordNick =>
          c.push (.PrivMsgOut "NickServ"
            ("IDENTIFY " ++ nick_pass ++ " " ++ c.config.nickname))
        | some .NickPassword =>
          c.push (.PrivMsgOut "NickServ"
            ("IDENTIFY " ++ c.config.nickname ++ " " ++ nick_pass))
        | none =>
          if c.resolved_nick = some c.config.nickname then
            c.push (.PrivMsgOut "NickServ" ("IDENTIFY " ++ nick_pass))
          else
            c.push (.PrivMsgOut "NickServ"
              ("IDENTIFY " ++ c.config.nickname ++ " " ++ nick_pass))
    let c := match c.config.umodes with
      | some modestring => c.push (.ModeMsg nick modestring)
      | none => c
    -- on_connect lines are parsed by crate::command::parse (outside src/);
    -- they are modelled as raw outbound lines
    let c := c.pushAll (c.config.on_connect.map Outbound.RawOnConnect)
    let c := c.pushAll (group_joins c.config.channels c.config.channel_keys)
    c.single message

/-- All arms of `Client::handle` below the BATCH and batch-tag arms, in
source order: the whois-context arm, the reroute arm, then the per-command
arms, then the fall-through `Single` event.  `buffer.server_message_target`
is external and modelled as the buffer identifier itself. -/
def handleCmd (c : Client) (message : Encoded) (context : Option Context) :
    Except String (List Event × Client) :=
  if (context.map Context.is_whois).getD false then
    .ok ([.WithTarget message c.nickname
      ((context.map Context.buffer).getD "")], c)
  else if (match message.command with
           | .Numeric .. => true
           | .Unknown .. => true
           | _ => false) && c.reroute_responses_to.isSome then
    .ok ([.WithTarget message c.nickname (c.reroute_responses_to.getD "")], c)
  else
    match message.command with
    | .CAP _ sub a b =>
      if sub = "LS" then
        match a, b with
        | none, _ => .ok ([], c)
        | some caps, none => c.capLs message caps none
        | some asterisk, some caps => c.capLs message caps (some asterisk)
      else if sub = "ACK" then
        match b <|> a with
        | none => .error "Malformed command"
        | some capsStr => c.capAck message capsStr
      else if sub = "NAK" then
        match b <|> a with
        | none => .error "Malformed command"
        | some _ => c.capNak message
      else if sub = "NEW" then
        match b <|> a with
        | none => .error "Malformed command"
        | some capsStr => c.capNew message capsStr
      else if sub = "DEL" then
        match b <|> a with
        | none => .error "Malformed command"
        | some capsStr => c.capDel message capsStr
      else c.single message
    | .AUTHENTICATE param =>
      if param = "+" then
        match c.config.sasl with
        | some sasl =>
          match sasl.param with
          | some p =>
            let c := c.push (.Authenticate p)
            let c := { c with registration_step := .End }
            (c.push .CapEnd).single message
          | none => .error "panic: SASL password must exist at this point!"
        | none => c.single message
      else c.single message
    | .NICK nick =>
      match message.user with
      | none => .error "Malformed command"
      | some old_user =>
        let ourself := c.nickname = old_user.nickname
        let c := if ourself then { c with resolved_nick := some nick } else c
        let rename : User → User := fun u => { u with nickname := nick }
        let c := { c with chanmap := c.chanmap.map (fun p =>
          (p.1, { p.2 with users := usersTakeInsert p.2.users old_user rename })) }
        let channels := c.user_channels old_user.nickname
        .ok ([.Broadcast (.Nickname old_user nick ourself channels
          message.serverTime)], c)
    | .Numeric num args =>
      match num with
      | .ERR_NICKNAMEINUSE | .ERR_ERRONEUSNICKNAME =>
        if c.resolved_nick.isNone then
          let alt := altNickAdvance c.alt_nick c.config.alt_nicks
          let c := { c with alt_nick := alt }
          let c := match alt.bind (fun i => c.config.alt_nicks[i]?) with
            | some nick => c.push (.NickMsg nick)
            | none => c
          c.single message
        else c.single message
      | .RPL_WELCOME => c.rplWelcome message args
    | .QUIT comment =>
      match message.user with
      | none => .error "Malformed command"
      | some user =>
        let c := { c with chanmap := c.chanmap.map (fun p =>
          (p.1, { p.2 with users := usersRemove p.2.users user })) }
        let channels := c.user_channels user.nickname
        .ok ([.Broadcast (.Quit user comment channels message.serverTime)], c)
    | .PART channel _ =>
      match message.user with
      | none => .error "Malformed command"
      | some user =>
        if user.nickname = c.nickname then
          ({ c with chanmap := aerase c.chanmap channel } : Client).single message
        else
          ({ c with chanmap := aupdate c.chanmap channel (fun ch =>
            { ch with users := usersRemove ch.users user }) } : Client).single
            message
    | .JOIN channel accountname =>
      match message.user with
      | none => .error "Malformed command"
      | some user =>
        if user.nickname = c.nickname then
          let c := { c with chanmap := ainsert c.chanmap channel {} }
          let c :=
            if c.config.who_poll_enabled then
              if c.isupportWhox then
                let fields := if c.supports_account_notify then "tcnfa" else "tcnf"
                let c := c.push (.WhoXMsg channel fields whoPollToken)
                { c with chanmap := aupdate c.chanmap channel (fun st =>
                  { st with last_who := some (.Requested c.clock (some whoPollToken)) }) }
              else
                let c := c.push (.WhoMsg channel)
                { c with chanmap := aupdate c.chanmap channel (fun st =>
                  { st with last_who := some (.Requested c.clock none) }) }
            else c
          .ok ([.JoinedChannel channel], c)
        else
          match alookup c.chanmap channel with
          | some _ =>
            let user := if c.supports_extended_join then
                match accountname with
                | some an => { user with accountname := some an }
                | none => user
              else user
            ({ c with chanmap := aupdate c.chanmap channel (fun ch =>
              { ch with users := usersInsert ch.users user }) } : Client).single
              message
          | none => c.single message
    | .KICK channel victim _ =>
      if victim = c.nickname then
        ({ c with chanmap := aerase c.chanmap channel } : Client).single message
      else
        ({ c with chanmap := aupdate c.chanmap channel (fun ch =>
          { ch with users := usersRemove ch.users { nickname := victim } }) }
          : Client).single message
    | _ => c.single message

/-- The batch context fallback of the context-resolution chain. -/
def batchContext (c : Client) (batch_tag : Option String) : Option Context :=
  batch_tag.bind (fun b => (alookup c.batches b).bind (fun batch => batch.context))

/-- The context-resolution chain at the top of `Client::handle`: the parent
context if injected; else pop a matching label (removing it from the
table — the second component is the updated table); else the context of the
open batch named by the batch tag. -/
def resolveContext (c : Client) (parent_context : Option Context)
    (label_tag batch_tag : Option String) :
    Option Context × List (String × Context) :=
  match parent_context with
  | some ctx => (some ctx, c.labels)
  | none =>
    match label_tag with
    | some label =>
      match alookup c.labels label with
      | some ctx => (some ctx, aerase c.labels label)
      | none => (c.batchContext batch_tag, c.labels)
    | none => (c.batchContext batch_tag, c.labels)

/-- The command dispatch of `Client::handle` after tag stripping and context
resolution: the BATCH arm, the generic batched-message arm (recursing
through `recur` and suppressing direct emission), or the remaining arms via
`handleCmd`. -/
def dispatchWith
    (recur : Client → Encoded → Option Context →
      Except String (List Event × Client))
    (c : Client) (message : Encoded) (context : Option Context)
    (batch_tag : Option String) : Except String (List Event × Client) :=
  match message.command with
  | .BATCH batchArg _ =>
    (match batchArg.toList with
     | [] => .error "Malformed command"
     | symbol :: refChars =>
       let reference := String.mk refChars
       if symbol = '+' then
         .ok ([], { c with batches := ainsert c.batches reference (Batch.new context) })
       else if symbol = '-' then
         match alookup c.batches reference with
         | some finished =>
           let c := { c with batches := aerase c.batches reference }
           match batch_tag with
           | some parentKey =>
             match alookup c.batches parentKey with
             | some _ =>
               let drain : Batch → Batch := fun parent =>
                 { parent with events := parent.events ++ finished.events }
               .ok ([], { c with batches := aupdate c.batches parentKey drain })
             | none => .ok (finished.events, c)
           | none => .ok (finished.events, c)
         | none => .ok ([], c)
       else .ok ([], c))
  | _ =>
    match batch_tag with
    | some bt' =>
      match recur c message context with
      | .error e => .error e
      | .ok (events, c1) =>
        match alookup c1.batches bt' with
        | some _ =>
          .ok ([], { c1 with batches := aupdate c1.batches bt' (fun b =>
            { b with events := b.events ++ events }) })
        | none => .ok (events, c1)
    | none => c.handleCmd message context

/-- Client::handle with an explicit recursion bound — strip the `label` and
`batch` tags, resolve the context (popping a matched label from the table),
then dispatch.  Each recursive call removes at least one tag, so any fuel
above the tag count is enough and the fuel-exhausted branch is unreachable
from `handle`. -/
def handleF : Nat → Client → Encoded → Option Context →
    Except String (List Event × Client)
  | 0, _, _, _ => .error "recursion depth exhausted"
  | fuel + 1, c, msg, parent_context =>
    let label_tag := (removeTag "label" msg.tags).1
    let tags1 := (removeTag "label" msg.tags).2
    let batch_tag := (removeTag "batch" tags1).1
    let message : Encoded := { msg with tags := (removeTag "batch" tags1).2 }
    let rc := resolveContext c parent_context label_tag batch_tag
    dispatchWith (handleF fuel) { c with labels := rc.2 } message rc.1 batch_tag

/-- Client::handle — `handleF` with enough fuel for its tag count. -/
def handle (c : Client) (msg : Encoded) (parent_context : Option Context) :
    Except String (List Event × Client) :=
  handleF (msg.tags.length + 1) c msg parent_context

/-- Client::receive — handle with no parent context, then clear the reroute
target on terminating numerics. -/
def receive (c : Client) (message : Encoded) :
    Except String (List Event × Client) :=
  let sr := stop_reroute message.command
  match c.handle message none with
  | .error e => .error e
  | .ok (events, c) =>
    .ok (events, if sr then { c with reroute_responses_to := none } else c)

end Client

/-- Frame facts carried by one inbound-handling step from `c` to `c'`, for a
message whose command is a BATCH command iff `isB`: the registration step is
unchanged or one of the explicitly assigned values; the label table only
loses entries (given the HashMap key-uniqueness invariant); and for
non-BATCH commands the set of open batch references is unchanged. -/
def FrameProp (c c' : Client) (isB : Bool) : Prop :=
  (c'.registration_step = c.registration_step ∨
    c'.registration_step = .Req ∨ c'.registration_step = .Sasl ∨
    c'.registration_step = .End) ∧
  ((c.labels.map Prod.fst).Nodup →
    (c'.labels.map Prod.fst).Nodup ∧
    ∀ K v, alookup c'.labels K = some v → alookup c.labels K = some v) ∧
  (isB = false →
    ∀ k, (alookup c'.batches k).isSome = (alookup c.batches k).isSome)

/-! ### Claim scenario definitions -/

/-- Helper scenario: the spec's example credentials. -/
def saslBob : Sasl := .Plain "bob" (some "hunter2") none none

/-- A tagless CAP message as received from the server. -/
def capMsg (sub : String) (tgt : Option String) (a b : Option String)
    (u : Option User) (t : Nat) : Encoded :=
  { tags := [], command := .CAP tgt sub a b, user := u, serverTime := t }

/-- A client that has already listed the `batch` capability. -/
def c7Client : Client := { config := { nickname := "me" }, listed_caps := ["batch"] }

/-- CAP NEW re-advertising `batch`. -/
def c7Msg : Encoded := capMsg "NEW" none (some "batch") none none 0

/-- The listed capabilities after the CAP NEW above. -/
def c7After : List String :=
  match c7Client.receive c7Msg with
  | .ok (_, c') => c'.listed_caps
  | .error _ => []

/-- A tagless numeric message as received from the server. -/
def numMsg (num : NumericCmd) (args : List String) (u : Option User)
    (t : Nat) : Encoded :=
  { tags := [], command := .Numeric num args, user := u, serverTime := t }

/-- The post-state of one ERR_NICKNAMEINUSE / ERR_ERRONEUSNICKNAME step
before nick resolution: advance the index, and send NICK for the indexed
alternative when there is one. -/
def altNickPost (c : Client) : Client :=
  let alt := altNickAdvance c.alt_nick c.config.alt_nicks
  let c1 : Client := { c with alt_nick := alt }
  match alt.bind (fun i => c.config.alt_nicks[i]?) with
  | some nick => c1.push (.NickMsg nick)
  | none => c1

/-- The spec's alt-nick scenario: nickname `al`, alternatives
`al_`, `al__`. -/
def c3Client : Client :=
  { config := { nickname := "al", alt_nicks := ["al_", "al__"] } }

/-- An ERR_NICKNAMEINUSE numeric. -/
def c3Msg : Encoded := numMsg .ERR_NICKNAMEINUSE [] none 0

/-- One receive step of the 433 scenario. -/
def c3Step (c : Client) : Client :=
  match c.receive c3Msg with
  | .ok (_, c') => c'
  | .error _ => c

/-- The client after three consecutive 433s. -/
def c3After3 : Client := c3Step (c3Step (c3Step c3Client))

/-- The client after a fourth 433. -/
def c3After4 : Client := c3Step c3After3

/-- The batch tag `Client::handle` extracts: the `batch` tag of the message
after the `label` tag is stripped. -/
def batchTagOf (m : Encoded) : Option String :=
  (removeTag "batch" (removeTag "label" m.tags).2).1

/-- An event accumulated under the open batch of the C1 scenario. -/
def c1Event : Event := .Single { tags := [], command := .Unknown "NOTE" [] } "me"

/-- The open batch of the C1 scenario. -/
def c1Batch : Batch := { context := none, events := [c1Event] }

/-- A client with one open batch `ref` holding one accumulated event. -/
def c1Client : Client :=
  { config := { nickname := "me" }, batches := [("ref", c1Batch)] }

/-- A non-BATCH message tagged with the open batch reference. -/
def c1Tagged : Encoded :=
  { tags := [{ key := "batch", value := some "ref" }],
    command := .Unknown "PING" [] }

/-- The untagged close of the open batch. -/
def c1Close : Encoded := { tags := [], command := .BATCH "-ref" [] }

/-- Events and client returned for the tagged message. -/
def c1TagRes : List Event × Client :=
  match c1Client.receive c1Tagged with
  | .ok r => r
  | .error _ => ([], c1Client)

/-- Events and client returned for the close. -/
def c1CloseRes : List Event × Client :=
  match c1Client.receive c1Close with
  | .ok r => r
  | .error _ => ([], c1Client)

/-! ## Theorems

From here on the file contains only lemmas and the claim theorems. -/

theorem removeTag_length_le (key : String) (ts : List Tag) :
    (removeTag key ts).2.length ≤ ts.length := by
  induction ts with
  | nil => simp [removeTag]
  | cons t ts ih =>
    simp only [removeTag]
    split
    · exact Nat.le_succ _
    · simpa using Nat.succ_le_succ ih

theorem removeTag_isSome_length_lt (key : String) (ts : List Tag) :
    (removeTag key ts).1.isSome → (removeTag key ts).2.length < ts.length := by
  induction ts with
  | nil => simp [removeTag]
  | cons t ts ih =>
    simp only [removeTag]
    split
    · intro _
      exact Nat.lt_succ_of_le (Nat.le_refl _)
    · intro h
      simpa using Nat.succ_lt_succ (ih (by simpa using h))

/-! ### Association-list lemmas -/

theorem alookup_aerase_ne {α : Type} (l : List (String × α)) (k k' : String)
    (h : k ≠ k') : alookup (aerase l k') k = alookup l k := by
  induction l with
  | nil => simp [aerase, alookup]
  | cons p rest ih =>
    obtain ⟨pk, pv⟩ := p
    simp only [aerase, alookup]
    by_cases h1 : pk = k'
    · subst h1
      simp only [if_pos rfl]
      simp only [if_neg (fun hh : pk = k => h hh.symm)]
      simp
    · simp only [if_neg h1, alookup]
      by_cases h2 : pk = k
      · simp [h2]
      · simp [h2, ih]

theorem alookup_aerase_self {α : Type} (l : List (String × α)) (k : String)
    (hnd : (l.map Prod.fst).Nodup) : alookup (aerase l k) k = none := by
  induction l with
  | nil => simp [aerase, alookup]
  | cons p rest ih =>
    obtain ⟨pk, pv⟩ := p
    simp only [List.map_cons, List.nodup_cons] at hnd
    simp only [aerase]
    by_cases h1 : pk = k
    · subst h1
      clear ih
      simp only [if_pos rfl]
      induction rest with
      | nil => simp [alookup]
      | cons q rest2 ih2 =>
        obtain ⟨qk, qv⟩ := q
        simp only [alookup]
        have hqk : qk ≠ pk := by
          intro hh
          exact hnd.1 (by simp [hh])
        simp only [if_neg hqk]
        exact ih2 ⟨fun hm => hnd.1 (List.mem_cons_of_mem _ hm), hnd.2.of_cons⟩
    · simp only [if_neg h1, alookup, if_neg h1]
      exact ih hnd.2

theorem alookup_ainsert_self {α : Type} (l : List (String × α)) (k : String)
    (v : α) : alookup (ainsert l k v) k = some v := by
  induction l with
  | nil => simp [ainsert, alookup]
  | cons p rest ih =>
    obtain ⟨pk, pv⟩ := p
    simp only [ainsert]
    by_cases h1 : pk = k
    · simp [h1, alookup]
    · simp [h1, alookup, ih]

theorem alookup_ainsert_ne {α : Type} (l : List (String × α)) (k k' : String)
    (v : α) (h : k ≠ k') : alookup (ainsert l k' v) k = alookup l k := by
  induction l with
  | nil =>
    simp only [ainsert, alookup]
    rw [if_neg (fun hh : k' = k => h hh.symm)]
  | cons p rest ih =>
    obtain ⟨pk, pv⟩ := p
    simp only [ainsert]
    by_cases h1 : pk = k'
    · subst h1
      simp only [if_pos rfl, alookup]
      rw [if_neg (fun hh : pk = k => h hh.symm),
        if_neg (fun hh : pk = k => h hh.symm)]
    · simp only [if_neg h1, alookup]
      by_cases h2 : pk = k
      · simp [h2]
      · simp [h2, ih]

theorem alookup_aupdate_self {α : Type} (l : List (String × α)) (k : String)
    (f : α → α) : alookup (aupdate l k f) k = (alookup l k).map f := by
  induction l with
  | nil => simp [aupdate, alookup]
  | cons p rest ih =>
    obtain ⟨pk, pv⟩ := p
    simp only [aupdate]
    by_cases h1 : pk = k
    · simp [h1, alookup]
    · simp [h1, alookup, ih]

theorem alookup_aupdate_ne {α : Type} (l : List (String × α)) (k k' : String)
    (f : α → α) (h : k ≠ k') : alookup (aupdate l k' f) k = alookup l k := by
  induction l with
  | nil => simp [aupdate, alookup]
  | cons p rest ih =>
    obtain ⟨pk, pv⟩ := p
    simp only [aupdate]
    by_cases h1 : pk = k'
    · subst h1
      simp only [if_pos rfl, alookup]
      rw [if_neg (fun hh : pk = k => h hh.symm),
        if_neg (fun hh : pk = k => h hh.symm)]
    · simp only [if_neg h1, alookup]
      by_cases h2 : pk = k
      · simp [h2]
      · simp [h2, ih]

theorem alookup_aupdate_isSome {α : Type} (l : List (String × α))
    (k k' : String) (f : α → α) :
    (alookup (aupdate l k' f) k).isSome = (alookup l k).isSome := by
  by_cases h : k = k'
  · subst h
    rw [alookup_aupdate_self]
    cases alookup l k <;> simp
  · rw [alookup_aupdate_ne _ _ _ _ h]

/-- A fresh connected client for the C4 scenario (step List after connect). -/
def c4Client : Client := ({ config := { nickname := "me" } } : Client).connect

/-- CAP LS advertising only an unrequested capability. -/
def c4msgFoo : Encoded := capMsg "LS" none (some "foo") none none 0

/-- CAP LS advertising `batch`. -/
def c4msgBatch : Encoded := capMsg "LS" none (some "batch") none none 0

/-- The client after the first CAP LS (nothing to request: step End). -/
def c4Step1 : Client :=
  match c4Client.receive c4msgFoo with
  | .ok (_, c') => c'
  | .error _ => c4Client

/-- The client after the second CAP LS (a request set exists: step Req). -/
def c4Step2 : Client :=
  match c4Step1.receive c4msgBatch with
  | .ok (_, c') => c'
  | .error _ => c4Step1

/-- The events of the second CAP LS receive. -/
def c4Evs2 : List Event :=
  match c4Step1.receive c4msgBatch with
  | .ok (evs, _) => evs
  | .error _ => []

/-- A client with labeled-response negotiated, for the C5 send scenario. -/
def c5Sender : Client :=
  { config := { nickname := "me" }, supports_labels := true }

/-- An outbound message for the C5 send scenario. -/
def c5Out : Encoded := { tags := [], command := .Unknown "LIST" [] }

/-- A client with one outstanding label `42`. -/
def c5Labelled : Client :=
  { config := { nickname := "me" }, labels := [("42", .Buffer "buf")] }

/-- An inbound message tagged with label `42`. -/
def c5In : Encoded :=
  { tags := [Tag.mk "label" (some "42")], command := .Unknown "X" [] }

/-- The client after the labelled inbound message. -/
def c5After : Client :=
  match c5Labelled.receive c5In with
  | .ok (_, c') => c'
  | .error _ => c5Labelled

/-- The events of that receive. -/
def c5Evs : List Event :=
  match c5Labelled.receive c5In with
  | .ok (evs, _) => evs
  | .error _ => []

/-- A client whose label table has been drained. -/
def c5Drained : Client := { config := { nickname := "me" }, labels := [] }

/-- The running-counter contribution of one channel inside `group_joins`:
channel plus comma for keyless channels, channel plus key plus a comma each
for keyed ones. -/
def joinContrib (keys : List (String × String)) (ch : String) : Nat :=
  match alookup keys ch with
  | some key => strBytes ch + strBytes key + 2
  | none => strBytes ch + 1

/-- Ten 100-byte capability names: the second CAP REQ produced for them is
515 bytes long. -/
def c2Caps : List String := List.replicate 10 (String.mk (List.replicate 100 'a'))

/-- A tagless QUIT message from a user. -/
def quitMsg (comment : Option String) (u : User) (t : Nat) : Encoded :=
  { tags := [], command := .QUIT comment, user := some u, serverTime := t }

/-- The channels the user was a member of at the time the QUIT arrived, in
the claim's sense: the chanmap entries whose user set contains the
nickname.  This follows the claim's words, for comparison with what the
handler actually puts in the broadcast (the cached last-sync views). -/
def claimedQuitChannels (c : Client) (nick : String) : List String :=
  (c.chanmap.filter (fun p =>
    p.2.users.any (fun u => u.nickname = nick))).map Prod.fst

/-- The quitting user of the C6 scenario. -/
def c6User : User := { nickname := "udoe" }

/-- A client whose chanmap has the user in `#a` but whose cached
channel/user views have not been rebuilt by `sync` since. -/
def c6Client : Client :=
  { config := { nickname := "me" },
    chanmap := [("#a", { users := [c6User] })] }

/-- The QUIT message of the C6 scenario. -/
def c6Msg : Encoded := quitMsg none c6User 0

/-- The events returned for that QUIT. -/
def c6Evs : List Event :=
  match c6Client.receive c6Msg with
  | .ok (evs, _) => evs
  | .error _ => []

/-- The scenario client with its views rebuilt by `sync`. -/
def c6Synced : Client := c6Client.sync

/-! ### Frame lemmas for the handler -/

theorem aerase_sublist {α : Type} (l : List (String × α)) (k : String) :
    List.Sublist (aerase l k) l := by
  induction l with
  | nil => simp [aerase]
  | cons p rest ih =>
    obtain ⟨pk, pv⟩ := p
    simp only [aerase]
    split
    · exact List.sublist_cons_self _ _
    · exact List.Sublist.cons₂ _ ih

theorem aerase_keys_nodup {α : Type} (l : List (String × α)) (k : String)
    (h : (l.map Prod.fst).Nodup) : ((aerase l k).map Prod.fst).Nodup :=
  List.Nodup.sublist ((aerase_sublist l k).map Prod.fst) h

theorem alookup_aerase_sub {α : Type} (l : List (String × α)) (k K : String)
    (v : α) (hnd : (l.map Prod.fst).Nodup)
    (h : alookup (aerase l k) K = some v) : alookup l K = some v := by
  by_cases hk : K = k
  · subst hk
    rw [alookup_aerase_self l K hnd] at h
    cases h
  · rwa [alookup_aerase_ne l K k hk] at h

theorem FrameProp.trans {c c1 c2 : Client} {b : Bool}
    (h1 : FrameProp c c1 b) (h2 : FrameProp c1 c2 b) : FrameProp c c2 b := by
  obtain ⟨s1, l1, b1⟩ := h1
  obtain ⟨s2, l2, b2⟩ := h2
  refine ⟨?_, ?_, ?_⟩
  · rcases s2 with h | h | h | h
    · rw [h]; exact s1
    · rw [h]; exact Or.inr (Or.inl rfl)
    · rw [h]; exact Or.inr (Or.inr (Or.inl rfl))
    · rw [h]; exact Or.inr (Or.inr (Or.inr rfl))
  · intro hnd
    obtain ⟨hnd1, sub1⟩ := l1 hnd
    obtain ⟨hnd2, sub2⟩ := l2 hnd1
    exact ⟨hnd2, fun K v hv => sub1 K v (sub2 K v hv)⟩
  · intro hb k
    rw [b2 hb k, b1 hb k]

theorem single_eq_ok {c : Client} {m : Encoded} {evs : List Event}
    {c' : Client} (h : c.single m = .ok (evs, c')) :
    evs = [.Single m c.nickname] ∧ c' = c := by
  simp only [Client.single, Except.ok.injEq, Prod.mk.injEq] at h
  exact ⟨h.1.symm, h.2.symm⟩

set_option maxHeartbeats 2000000 in
/-- The arms below the BATCH and batched-message arms leave the label table
and the batch table unchanged, and assign the registration step only to
Req, Sasl or End. -/
theorem handleCmd_frame (c : Client) (m : Encoded) (ctx : Option Context)
    (evs : List Event) (c' : Client)
    (h : c.handleCmd m ctx = .ok (evs, c')) :
    c'.labels = c.labels ∧ c'.batches = c.batches ∧
    (c'.registration_step = c.registration_step ∨
      c'.registration_step = .Req ∨ c'.registration_step = .Sasl ∨
      c'.registration_step = .End) := by
  unfold Client.handleCmd Client.capLs Client.capAck Client.capNak
    Client.capNew Client.capDel Client.capEndStep Client.rplWelcome at h
  dsimp only at h
  repeat' split at h
  all_goals first
    | (obtain ⟨-, rfl⟩ := single_eq_ok h
       refine ⟨?_, ?_, ?_⟩ <;> simp [Client.push, Client.pushAll])
    | (simp only [Except.ok.injEq, Prod.mk.injEq] at h
       obtain ⟨-, h2⟩ := h
       subst h2
       refine ⟨?_, ?_, ?_⟩ <;> simp [Client.push, Client.pushAll])
    | exact absurd h (by simp)

theorem resolveContext_labels (c : Client) (pc : Option Context)
    (lt bt : Option String) :
    (Client.resolveContext c pc lt bt).2 = c.labels ∨
    ∃ L, lt = some L ∧
      (Client.resolveContext c pc lt bt).2 = aerase c.labels L := by
  unfold Client.resolveContext
  rcases pc with _ | ctx
  · rcases lt with _ | L
    · left; rfl
    · rcases hL : alookup c.labels L with _ | ctx2
      · left; simp [hL]
      · right; exact ⟨L, rfl, by simp [hL]⟩
  · left; rfl

theorem FrameProp_resolve (c : Client) (pc : Option Context)
    (lt bt : Option String) (b : Bool) :
    FrameProp c { c with labels := (Client.resolveContext c pc lt bt).2 } b := by
  refine ⟨Or.inl rfl, ?_, fun _ k => rfl⟩
  intro hnd
  dsimp only
  rcases resolveContext_labels c pc lt bt with he | ⟨L, -, he⟩
  · rw [he]
    exact ⟨hnd, fun K v hv => hv⟩
  · rw [he]
    exact ⟨aerase_keys_nodup _ _ hnd,
      fun K v hv => alookup_aerase_sub _ _ _ _ hnd hv⟩

set_option maxHeartbeats 1000000 in
/-- Frame facts for the dispatch, given them for the recursion. -/
theorem dispatchWith_frame
    (recur : Client → Encoded → Option Context →
      Except String (List Event × Client))
    (hrec : ∀ cr mr ctxr evsr cr', recur cr mr ctxr = .ok (evsr, cr') →
      FrameProp cr cr' mr.command.isBATCH)
    (c : Client) (m : Encoded) (ctx : Option Context) (bt : Option String)
    (evs : List Event) (c' : Client)
    (h : Client.dispatchWith recur c m ctx bt = .ok (evs, c')) :
    FrameProp c c' m.command.isBATCH := by
  unfold Client.dispatchWith at h
  split at h
  · -- the BATCH arm: labels and step unchanged, command is BATCH
    rename_i batchArg params heq
    have hiB : m.command.isBATCH = true := by rw [heq]; rfl
    rw [hiB]
    dsimp only at h
    repeat' split at h
    all_goals first
      | (simp only [Except.ok.injEq, Prod.mk.injEq] at h
         obtain ⟨-, h2⟩ := h
         subst h2
         exact ⟨Or.inl rfl, fun hnd => ⟨hnd, fun K v hv => hv⟩,
           fun hff => nomatch hff⟩)
      | exact absurd h (by simp)
  · -- the batched-message and handleCmd arms
    split at h
    · -- batched: recurse, then extend the batch's events
      rename_i bt'
      split at h
      · exact absurd h (by simp)
      · rename_i res events c1 heq
        have hf1 := hrec _ _ _ _ _ heq
        split at h
        · simp only [Except.ok.injEq, Prod.mk.injEq] at h
          obtain ⟨-, h2⟩ := h
          subst h2
          refine FrameProp.trans hf1 ⟨Or.inl rfl, fun hnd => ⟨hnd, fun K v hv => hv⟩, ?_⟩
          intro _ k
          exact alookup_aupdate_isSome _ _ _ _
        · simp only [Except.ok.injEq, Prod.mk.injEq] at h
          obtain ⟨-, h2⟩ := h
          subst h2
          exact hf1
    · -- plain handleCmd
      obtain ⟨hl, hb, hs⟩ := handleCmd_frame _ _ _ _ _ h
      exact ⟨hs, fun hnd => by rw [hl]; exact ⟨hnd, fun K v hv => hv⟩,
        fun _ k => by rw [hb]⟩

/-- Frame facts for `handleF` at every fuel. -/
theorem handleF_frame : ∀ (n : Nat) (c : Client) (m : Encoded)
    (pc : Option Context) (evs : List Event) (c' : Client),
    Client.handleF n c m pc = .ok (evs, c') →
    FrameProp c c' m.command.isBATCH := by
  intro n
  induction n with
  | zero =>
    intro c m pc evs c' h
    exact absurd h (by simp [Client.handleF])
  | succ n ih =>
    intro c m pc evs c' h
    rw [Client.handleF] at h
    have hd := dispatchWith_frame (Client.handleF n)
      (fun cr mr ctxr evsr cr' hr => ih cr mr ctxr evsr cr' hr) _ _ _ _ _ _ h
    exact FrameProp.trans (FrameProp_resolve c pc _ _ _) hd

/-- Frame facts for `receive`. -/
theorem receive_frame (c : Client) (m : Encoded) (evs : List Event)
    (c' : Client) (h : c.receive m = .ok (evs, c')) :
    FrameProp c c' m.command.isBATCH := by
  unfold Client.receive at h
  simp only [stop_reroute, Bool.false_eq_true, if_false] at h
  split at h
  · exact absurd h (by simp)
  · rename_i events c1 heq
    simp only [Except.ok.injEq, Prod.mk.injEq] at h
    obtain ⟨-, h2⟩ := h
    subst h2
    exact handleF_frame _ _ _ _ _ _ heq

/-! ### Shaper bucket lemmas (for C2) -/

theorem sumBy_cons {α : Type} (contrib : α → Nat) (x : α) (l : List α) :
    sumBy contrib (x :: l) = contrib x + sumBy contrib l := by
  simp [sumBy]

theorem sumBy_reverse {α : Type} (contrib : α → Nat) (l : List α) :
    sumBy contrib l.reverse = sumBy contrib l := by
  simp [sumBy, List.sum_reverse]

theorem maxBy_le {α : Type} (contrib : α → Nat) (l : List α) (x : α)
    (h : x ∈ l) : contrib x ≤ maxBy contrib l := by
  induction l with
  | nil => simp at h
  | cons y ys ih =>
    simp only [List.mem_cons] at h
    simp only [maxBy, List.foldr_cons]
    rcases h with rfl | h
    · exact Nat.le_max_left _ _
    · exact le_trans (ih h) (Nat.le_max_right _ _)

theorem flush_bound {α : Type} (contrib : α → Nat) (maxLen : Nat)
    (hml : 0 < maxLen) (count curChunk base : Nat) (cur : List α)
    (h1 : count = base + sumBy contrib cur)
    (h2 : count / maxLen = curChunk)
    (h3 : ∀ last, cur.getLast? = some last →
      maxLen * curChunk ≤ base + contrib last) :
    ∀ first, cur.reverse.head? = some first →
      sumBy contrib cur.reverse ≤ maxLen - 1 + contrib first := by
  intro first hfirst
  rw [List.head?_reverse] at hfirst
  have h3' := h3 first hfirst
  have hmod := Nat.div_add_mod count maxLen
  rw [h2] at hmod
  have hr : count % maxLen < maxLen := Nat.mod_lt _ hml
  rw [sumBy_reverse]
  generalize maxLen * curChunk = P at h3' hmod
  omega

theorem bucketsAux_bound {α : Type} (contrib : α → Nat) (maxLen : Nat)
    (hml : 0 < maxLen) :
    ∀ (xs : List α) (count curChunk : Nat) (cur : List α) (base : Nat),
    count = base + sumBy contrib cur →
    count / maxLen = curChunk →
    (∀ last, cur.getLast? = some last →
      maxLen * curChunk ≤ base + contrib last) →
    ∀ g ∈ bucketsAux contrib maxLen xs count curChunk cur,
      (∀ first, g.head? = some first →
        sumBy contrib g ≤ maxLen - 1 + contrib first) ∧
      (∀ y ∈ g, y ∈ xs ∨ y ∈ cur) := by
  intro xs
  induction xs with
  | nil =>
    intro count curChunk cur base h1 h2 h3 g hg
    simp only [bucketsAux, List.mem_singleton] at hg
    subst hg
    refine ⟨flush_bound contrib maxLen hml count curChunk base cur h1 h2 h3, ?_⟩
    intro y hy
    exact Or.inr (List.mem_reverse.1 hy)
  | cons x xs ih =>
    intro count curChunk cur base h1 h2 h3 g hg
    simp only [bucketsAux] at hg
    by_cases hk : (count + contrib x) / maxLen = curChunk
    · rw [if_pos hk] at hg
      have hI1 : count + contrib x = base + sumBy contrib (x :: cur) := by
        rw [sumBy_cons]
        omega
      have hI3 : ∀ last, (x :: cur).getLast? = some last →
          maxLen * curChunk ≤ base + contrib last := by
        intro last hlast
        cases cur with
        | nil =>
          simp only [List.getLast?_singleton, Option.some.injEq] at hlast
          subst hlast
          have hbase : count = base := by
            simpa [sumBy] using h1
          have hmod := Nat.div_add_mod (count + contrib x) maxLen
          rw [hk] at hmod
          omega
        | cons z zs =>
          rw [List.getLast?_cons_cons] at hlast
          exact h3 last hlast
      have hrec := ih (count + contrib x) curChunk (x :: cur) base hI1 hk hI3 g hg
      refine ⟨hrec.1, ?_⟩
      intro y hy
      rcases hrec.2 y hy with h | h
      · exact Or.inl (List.mem_cons_of_mem _ h)
      · rcases List.mem_cons.1 h with rfl | h
        · exact Or.inl (List.mem_cons_self _ _)
        · exact Or.inr h
    · rw [if_neg hk] at hg
      rcases List.mem_cons.1 hg with rfl | hg
      · refine ⟨flush_bound contrib maxLen hml count curChunk base cur h1 h2 h3, ?_⟩
        intro y hy
        exact Or.inr (List.mem_reverse.1 hy)
      · have hI1 : count + contrib x = count + sumBy contrib [x] := by
          simp [sumBy]
        have hI3 : ∀ last, ([x] : List α).getLast? = some last →
            maxLen * ((count + contrib x) / maxLen) ≤ count + contrib last := by
          intro last hlast
          simp only [List.getLast?_singleton, Option.some.injEq] at hlast
          subst hlast
          have hmod := Nat.div_add_mod (count + contrib x) maxLen
          omega
        have hrec := ih (count + contrib x) ((count + contrib x) / maxLen)
          [x] count hI1 rfl hI3 g hg
        refine ⟨hrec.1, ?_⟩
        intro y hy
        rcases hrec.2 y hy with h | h
        · exact Or.inl (List.mem_cons_of_mem _ h)
        · rcases List.mem_cons.1 h with rfl | h
          · exact Or.inl (List.mem_cons_self _ _)
          · simp at h

theorem buckets_bound {α : Type} (contrib : α → Nat) (maxLen : Nat)
    (hml : 0 < maxLen) (items : List α) :
    ∀ g ∈ buckets contrib maxLen items,
      (∀ first, g.head? = some first →
        sumBy contrib g ≤ maxLen - 1 + contrib first) ∧
      (∀ y ∈ g, y ∈ items) := by
  cases items with
  | nil => simp [buckets]
  | cons x xs =>
    intro g hg
    simp only [buckets] at hg
    have hI3 : ∀ last, ([x] : List α).getLast? = some last →
        maxLen * (contrib x / maxLen) ≤ 0 + contrib last := by
      intro last hlast
      simp only [List.getLast?_singleton, Option.some.injEq] at hlast
      subst hlast
      have hmod := Nat.div_add_mod (contrib x) maxLen
      omega
    have hrec := bucketsAux_bound contrib maxLen hml xs (contrib x)
      (contrib x / maxLen) [x] 0 (by simp [sumBy]) rfl hI3 g hg
    refine ⟨hrec.1, ?_⟩
    intro y hy
    rcases hrec.2 y hy with h | h
    · exact List.mem_cons_of_mem _ h
    · rcases List.mem_cons.1 h with rfl | h
      · exact List.mem_cons_self _ _
      · simp at h

theorem strBytes_append (s t : String) :
    strBytes (s ++ t) = strBytes s + strBytes t := by
  simp [strBytes, String.toList, String.data_append]

theorem strBytes_joinSep (sep : String) : ∀ (l : List String) (x : String),
    strBytes (joinSep sep (x :: l)) =
      sumBy strBytes (x :: l) + strBytes sep * l.length := by
  intro l
  induction l with
  | nil =>
    intro x
    simp [joinSep, sumBy]
  | cons y ys ih =>
    intro x
    show strBytes (x ++ sep ++ joinSep sep (y :: ys)) = _
    rw [strBytes_append, strBytes_append, ih y]
    simp only [sumBy, List.map_cons, List.sum_cons, List.length_cons]
    ring

theorem sumBy_add_const {α : Type} (f : α → Nat) (k : Nat) (l : List α) :
    sumBy (fun x => f x + k) l = sumBy f l + k * l.length := by
  induction l with
  | nil => simp [sumBy]
  | cons x xs ih =>
    rw [sumBy_cons, sumBy_cons, ih]
    simp [List.length_cons]
    ring

theorem sumBy_map {α β : Type} (f : β → Nat) (g : α → β) (l : List α) :
    sumBy f (l.map g) = sumBy (fun x => f (g x)) l := by
  simp [sumBy, List.map_map]
  rfl

theorem sumBy_add_fun {α : Type} (f g : α → Nat) (l : List α) :
    sumBy (fun x => f x + g x) l = sumBy f l + sumBy g l := by
  induction l with
  | nil => simp [sumBy]
  | cons x xs ih =>
    rw [sumBy_cons, sumBy_cons, sumBy_cons, ih]
    ring

/-! ### C2 — shaped messages and the 512-byte limit (corrected)

Each produced message is one bucket of the running-counter chunking
`chunk = cumulative / budget`.  The first item of a bucket can straddle the
bucket boundary from below, so a bucket's contribution sum is bounded only
by `budget - 1 + (contribution of its first item)`, giving messages of up
to `510 + C` bytes where `C` is the largest single-item contribution — and
that slack is real: ten 100-byte capability names produce a 515-byte
CAP REQ. -/

theorem capReq_bound (capabilities : List String) (msg : Outbound)
    (hm : msg ∈ group_capability_requests capabilities) :
    msg.wireBytes ≤ 510 + maxBy (fun s => strBytes s + 1) capabilities := by
  unfold group_capability_requests at hm
  rw [List.mem_map] at hm
  obtain ⟨g, hg, rfl⟩ := hm
  have hb := buckets_bound (fun s => strBytes s + 1) capReqMaxLen (by decide)
    capabilities g hg
  cases g with
  | nil =>
    show strBytes "CAP REQ :" + strBytes "" + 2 ≤ _
    have : strBytes "CAP REQ :" + strBytes "" + 2 = 11 := by decide
    omega
  | cons first rest =>
    show strBytes "CAP REQ :" + strBytes (joinSep " " (first :: rest)) + 2 ≤ _
    rw [strBytes_joinSep]
    have hsum := hb.1 first rfl
    rw [sumBy_add_const strBytes 1] at hsum
    have hmax : strBytes first + 1 ≤ maxBy (fun s => strBytes s + 1) capabilities := by
      simpa using maxBy_le (fun s => strBytes s + 1) capabilities first
        (hb.2 first (List.mem_cons_self _ _))
    have h9 : strBytes "CAP REQ :" = 9 := by decide
    have hsp : strBytes " " = 1 := by decide
    have hcap : capReqMaxLen = 501 := by decide
    rw [hcap] at hsum
    have hlen : (first :: rest).length = rest.length + 1 := by simp
    have hbeta : (fun s => strBytes s + 1) first = strBytes first + 1 := rfl
    rw [hbeta] at hsum
    rw [h9, hsp]
    omega

theorem monitor_bound (targets : List String) (limit : Option Nat)
    (msg : Outbound) (hm : msg ∈ group_monitors targets limit) :
    msg.wireBytes ≤ 510 + maxBy (fun s => strBytes s + 1) targets := by
  unfold group_monitors at hm
  rw [List.mem_map] at hm
  obtain ⟨g, hg, rfl⟩ := hm
  have hsubs : ∀ y, y ∈ (match limit with
      | some l => targets.take l
      | none => targets) → y ∈ targets := by
    intro y hy
    cases limit with
    | none => exact hy
    | some l => exact List.take_subset l targets hy
  have hb := buckets_bound (fun s => strBytes s + 1) monitorMaxLen (by decide) _ g hg
  cases g with
  | nil =>
    show strBytes "MONITOR + " + strBytes "" + 2 ≤ _
    have : strBytes "MONITOR + " + strBytes "" + 2 = 12 := by decide
    omega
  | cons first rest =>
    show strBytes "MONITOR + " + strBytes (joinSep "," (first :: rest)) + 2 ≤ _
    rw [strBytes_joinSep]
    have hsum := hb.1 first rfl
    rw [sumBy_add_const strBytes 1] at hsum
    have hmax : strBytes first + 1 ≤ maxBy (fun s => strBytes s + 1) targets := by
      simpa using maxBy_le (fun s => strBytes s + 1) targets first
        (hsubs first (hb.2 first (List.mem_cons_self _ _)))
    have h10 : strBytes "MONITOR + " = 10 := by decide
    have hsp : strBytes "," = 1 := by decide
    have hcap : monitorMaxLen = 500 := by decide
    rw [hcap] at hsum
    have hlen : (first :: rest).length = rest.length + 1 := by simp
    have hbeta : (fun s => strBytes s + 1) first = strBytes first + 1 := rfl
    rw [hbeta] at hsum
    rw [h10, hsp]
    omega

theorem joins_bound (channels : List String) (keys : List (String × String))
    (msg : Outbound) (hm : msg ∈ group_joins channels keys) :
    msg.wireBytes ≤ 510 + maxBy (joinContrib keys) channels := by
  unfold group_joins at hm
  rw [List.mem_append] at hm
  rcases hm with hm | hm
  · rw [List.mem_map] at hm
    obtain ⟨g, hg, rfl⟩ := hm
    have hb := buckets_bound (fun s => strBytes s + 1) joinMaxLen (by decide) _ g hg
    cases g with
    | nil =>
      show strBytes "JOIN " + strBytes "" + 2 ≤ _
      have : strBytes "JOIN " + strBytes "" + 2 = 7 := by decide
      omega
    | cons first rest =>
      show strBytes "JOIN " + strBytes (joinSep "," (first :: rest)) + 2 ≤ _
      rw [strBytes_joinSep]
      have hsum := hb.1 first rfl
      rw [sumBy_add_const strBytes 1] at hsum
      have hfmem := hb.2 first (List.mem_cons_self _ _)
      rw [List.mem_filter] at hfmem
      have hjc : joinContrib keys first = strBytes first + 1 := by
        unfold joinContrib
        rcases hlk : alookup keys first with _ | key
        · rfl
        · rw [hlk] at hfmem
          simp at hfmem
      have hmax : joinContrib keys first ≤ maxBy (joinContrib keys) channels :=
        maxBy_le (joinContrib keys) channels first hfmem.1
      have h5 : strBytes "JOIN " = 5 := by decide
      have hsp : strBytes "," = 1 := by decide
      have hcap : joinMaxLen = 505 := by decide
      rw [hcap] at hsum
      have hlen : (first :: rest).length = rest.length + 1 := by simp
      have hbeta : (fun s => strBytes s + 1) first = strBytes first + 1 := rfl
      rw [hbeta] at hsum
      rw [h5, hsp]
      omega
  · rw [List.mem_map] at hm
    obtain ⟨g, hg, rfl⟩ := hm
    have hb := buckets_bound (fun p : String × String =>
      strBytes p.1 + strBytes p.2 + 2) joinMaxLen (by decide) _ g hg
    cases g with
    | nil =>
      show strBytes "JOIN " + strBytes "" + 1 + strBytes "" + 2 ≤ _
      have : strBytes "JOIN " + strBytes "" + 1 + strBytes "" + 2 = 8 := by decide
      omega
    | cons first rest =>
      show strBytes "JOIN " +
        strBytes (joinSep "," ((first :: rest).map Prod.fst)) + 1 +
        strBytes (joinSep "," ((first :: rest).map Prod.snd)) + 2 ≤ _
      have hmapf : (first :: rest).map Prod.fst = first.1 :: rest.map Prod.fst := rfl
      have hmaps : (first :: rest).map Prod.snd = first.2 :: rest.map Prod.snd := rfl
      rw [hmapf, hmaps, strBytes_joinSep, strBytes_joinSep]
      rw [sumBy_cons, sumBy_cons]
      have hsum := hb.1 first rfl
      have hfmem := hb.2 first (List.mem_cons_self _ _)
      rw [List.mem_filterMap] at hfmem
      obtain ⟨ch, hch, hmapeq⟩ := hfmem
      rcases hlk : alookup keys ch with _ | key
      · rw [hlk] at hmapeq
        simp at hmapeq
      · rw [hlk] at hmapeq
        simp only [Option.map_some', Option.some.injEq] at hmapeq
        have hch1 : first.1 = ch := by rw [← hmapeq]
        have hch2 : first.2 = key := by rw [← hmapeq]
        have hjc : joinContrib keys first.1 = strBytes first.1 + strBytes first.2 + 2 := by
          unfold joinContrib
          rw [hch1, hlk, hch2]
        have hmax : joinContrib keys first.1 ≤ maxBy (joinContrib keys) channels := by
          rw [hch1]
          exact maxBy_le (joinContrib keys) channels ch hch
        have hsum2 : sumBy (fun p : String × String =>
            strBytes p.1 + strBytes p.2 + 2) (first :: rest) ≤
            joinMaxLen - 1 + (strBytes first.1 + strBytes first.2 + 2) := hsum
        have hexp : sumBy (fun p : String × String =>
            strBytes p.1 + strBytes p.2 + 2) (first :: rest) =
            sumBy (fun p : String × String => strBytes p.1) (first :: rest) +
            sumBy (fun p : String × String => strBytes p.2) (first :: rest) +
            2 * (first :: rest).length := by
          rw [sumBy_add_const (fun p : String × String => strBytes p.1 + strBytes p.2) 2]
          rw [sumBy_add_fun (fun p : String × String => strBytes p.1)
            (fun p : String × String => strBytes p.2)]
        have hsq : sumBy strBytes (rest.map Prod.fst) =
            sumBy (fun p : String × String => strBytes p.1) rest := by
          rw [sumBy_map]
        have hsq2 : sumBy strBytes (rest.map Prod.snd) =
            sumBy (fun p : String × String => strBytes p.2) rest := by
          rw [sumBy_map]
        have h5 : strBytes "JOIN " = 5 := by decide
        have hsp : strBytes "," = 1 := by decide
        have hcap : joinMaxLen = 505 := by decide
        rw [hcap] at hsum2
        rw [hexp, sumBy_cons, sumBy_cons] at hsum2
        have hlen : (first :: rest).length = rest.length + 1 := by simp
        have hlenf : (rest.map Prod.fst).length = rest.length := by simp
        have hlens : (rest.map Prod.snd).length = rest.length := by simp
        rw [h5, hsp, hsq, hsq2, hlenf, hlens]
        rw [hlen] at hsum2
        omega

set_option maxRecDepth 20000 in
/-- Counterexample to C2 as stated: for ten capability names of 100 bytes
each, one of the produced CAP REQ messages is 515 bytes long, over the
512-byte limit (the counter 505 of its first item straddles the 501-byte
budget boundary, so five 100-byte items land in one bucket). -/
theorem claim_C2_counterexample :
    (group_capability_requests c2Caps).any
      (fun msg => decide (512 < msg.wireBytes)) = true := by
  decide

/-- C2 amended: every message produced by the three shapers is at most
`510 + C` bytes long including the command prefix and the trailing CRLF,
where `C` is the largest single-item byte contribution of the input (item
bytes + 1 for capabilities, monitor targets and keyless channels; channel
bytes + key bytes + 2 for keyed channels).  The plain 512-byte bound of the
claim holds only when no bucket's first item straddles a budget boundary,
and fails in general. -/
theorem claim_C2_amended :
    (∀ (capabilities : List String) (msg : Outbound),
      msg ∈ group_capability_requests capabilities →
      msg.wireBytes ≤ 510 + maxBy (fun s => strBytes s + 1) capabilities) ∧
    (∀ (channels : List String) (keys : List (String × String)) (msg : Outbound),
      msg ∈ group_joins channels keys →
      msg.wireBytes ≤ 510 + maxBy (joinContrib keys) channels) ∧
    (∀ (targets : List String) (limit : Option Nat) (msg : Outbound),
      msg ∈ group_monitors targets limit →
      msg.wireBytes ≤ 510 + maxBy (fun s => strBytes s + 1) targets) :=
  ⟨capReq_bound, joins_bound, monitor_bound⟩

/-- Witness for the amended C2 at a one-capability request. -/
theorem claim_C2_amended_witness :
    Outbound.wireBytes (.CapReq "batch") ≤
      510 + maxBy (fun s => strBytes s + 1) ["batch"] :=
  claim_C2_amended.1 ["batch"] (.CapReq "batch") (by decide)


/-! ### C4 — registration_step monotonicity (corrected)

The CAP LS and CAP ACK arms carry no guard on the current step, so a CAP LS
terminator processed after the step reached End assigns Req again (and an
ACK with `sasl` after End assigns Sasl): the step is not monotone.  What
does hold: the handler only ever assigns Req, Sasl or End, so the step never
returns to Start, and never to List after connect set it. -/

/-- Counterexample to C4 as stated, reachable from a fresh client: connect
(step List), then CAP LS advertising only `foo` (nothing to request — step
End), then CAP LS advertising `batch` (a request set exists — step Req):
the step moves from End back to Req, a decrease under
Start < List < Req < Sasl < End. -/
theorem claim_C4_counterexample :
    c4Client.registration_step = .List ∧
    c4Step1.registration_step = .End ∧
    c4Step2.registration_step = .Req ∧
    RegistrationStep.rank .Req < RegistrationStep.rank .End := by
  refine ⟨by decide, by decide, by decide, by decide⟩

/-- C4 amended: across any receive call the registration step is either
unchanged or assigned one of Req, Sasl, End — it never returns to Start and
never to List (connect is the only assignment of List) — but it is not
monotone: a CAP LS terminator arriving after End moves it back to Req, and
a CAP ACK carrying `sasl` can move End back to Sasl. -/
theorem claim_C4_amended :
    (∀ (c : Client) (m : Encoded) (evs : List Event) (c' : Client),
      c.receive m = .ok (evs, c') →
      c'.registration_step = c.registration_step ∨
        c'.registration_step = .Req ∨ c'.registration_step = .Sasl ∨
        c'.registration_step = .End) ∧
    (∀ c : Client, (c.connect).registration_step = .List) :=
  ⟨fun c m evs c' h => (receive_frame c m evs c' h).1, fun _ => rfl⟩

/-- Witness for the amended C4 at the second CAP LS of the counterexample
scenario. -/
theorem claim_C4_amended_witness :
    c4Step2.registration_step = c4Step1.registration_step ∨
      c4Step2.registration_step = .Req ∨
      c4Step2.registration_step = .Sasl ∨
      c4Step2.registration_step = .End :=
  claim_C4_amended.1 c4Step1 c4msgBatch c4Evs2 c4Step2 rfl

/-! ### Membership lemmas for the sorted views -/

theorem mem_insertLe {α : Type} (le : α → α → Bool) (x y : α) (l : List α) :
    y ∈ sortLeBy.insertLe le x l ↔ y = x ∨ y ∈ l := by
  induction l with
  | nil => simp [sortLeBy.insertLe]
  | cons z zs ih =>
    simp only [sortLeBy.insertLe]
    split
    · simp [or_assoc]
    · simp [ih]
      tauto

theorem mem_sortLeBy {α : Type} (le : α → α → Bool) (x : α) (l : List α) :
    x ∈ sortLeBy le l ↔ x ∈ l := by
  induction l with
  | nil => simp [sortLeBy]
  | cons z zs ih => simp [sortLeBy, mem_insertLe, ih]

theorem alookup_isSome_iff_mem_keys {α : Type} (l : List (String × α))
    (k : String) : (alookup l k).isSome ↔ k ∈ l.map Prod.fst := by
  induction l with
  | nil => simp [alookup]
  | cons p rest ih =>
    obtain ⟨pk, pv⟩ := p
    simp only [alookup, List.map_cons, List.mem_cons]
    by_cases h : pk = k
    · simp [h]
    · rw [if_neg h, ← ih]
      constructor
      · intro hm
        exact Or.inr hm
      · rintro (rfl | hm)
        · exact absurd rfl h
        · exact hm

theorem alookup_mem {α : Type} (l : List (String × α)) (k : String) (v : α)
    (h : alookup l k = some v) : (k, v) ∈ l := by
  induction l with
  | nil => simp [alookup] at h
  | cons p rest ih =>
    obtain ⟨pk, pv⟩ := p
    simp only [alookup] at h
    by_cases hk : pk = k
    · rw [if_pos hk] at h
      cases h
      simp [hk]
    · rw [if_neg hk] at h
      simp [ih h]

theorem alookup_of_mem_nodup {α : Type} (l : List (String × α)) (k : String)
    (v : α) (hnd : (l.map Prod.fst).Nodup) (h : (k, v) ∈ l) :
    alookup l k = some v := by
  induction l with
  | nil => simp at h
  | cons p rest ih =>
    obtain ⟨pk, pv⟩ := p
    simp only [List.map_cons, List.nodup_cons] at hnd
    simp only [List.mem_cons] at h
    rcases h with h | h
    · cases h
      simp [alookup]
    · have hpk : pk ≠ k := by
        intro hh
        subst hh
        exact hnd.1 (List.mem_map_of_mem Prod.fst h)
      simp only [alookup, if_neg hpk]
      exact ih hnd.2 h

theorem alookup_map_snd {α β : Type} (l : List (String × α)) (f : α → β)
    (k : String) :
    alookup (l.map (fun p => (p.1, f p.2))) k = (alookup l k).map f := by
  induction l with
  | nil => simp [alookup]
  | cons p rest ih =>
    obtain ⟨pk, pv⟩ := p
    simp only [List.map_cons, alookup]
    by_cases h : pk = k
    · simp [h]
    · simp [h, ih]

/-! ### C6 — QUIT broadcast channels (corrected)

The QUIT arm removes the user from every chanmap entry and then calls
`user_channels`, which reads the *cached* `channels`/`users` views rebuilt
only by `sync` — so the broadcast lists the channels of the last-synced
views, which equal the membership at arrival only when the views are in
sync. -/

theorem quit_receive_eq (c : Client) (comment : Option String) (user : User)
    (t : Nat) :
    c.receive (quitMsg comment user t) =
      .ok ([.Broadcast (.Quit user comment (c.user_channels user.nickname) t)],
        { c with chanmap := c.chanmap.map (fun p =>
            (p.1, { p.2 with users := usersRemove p.2.users user })) }) := by
  obtain ⟨cfg, sent, altn, resn, chm, chs, us, lbl, bat, rrt, step, lc, sl,
    sa, sacc, sej, srm, rrc, iw, ic, clk⟩ := c
  simp [Client.receive, Client.handle, stop_reroute, quitMsg, Client.handleF,
    removeTag, Client.resolveContext, Client.dispatchWith, Client.batchContext,
    Client.handleCmd, Client.user_channels, Client.usersOf]

theorem user_channels_synced (c : Client) (nick : String)
    (hnd : (c.chanmap.map Prod.fst).Nodup)
    (hch : c.channels = c.syncChannelsOf)
    (hus : c.users = c.syncUsersOf) (ch : String) :
    ch ∈ c.user_channels nick ↔ ch ∈ claimedQuitChannels c nick := by
  unfold Client.user_channels claimedQuitChannels Client.usersOf
  rw [hch, hus]
  unfold Client.syncChannelsOf Client.syncUsersOf
  constructor
  · intro hm
    rw [List.mem_filter] at hm
    obtain ⟨hkeys, hany⟩ := hm
    rw [mem_sortLeBy] at hkeys
    have hsome : (alookup c.chanmap ch).isSome :=
      (alookup_isSome_iff_mem_keys _ _).2 hkeys
    rcases hlk : alookup c.chanmap ch with _ | chan
    · rw [hlk] at hsome
      cases hsome
    · rw [alookup_map_snd c.chanmap
        (fun chan => sortLeBy (fun u v => decide (u.nickname ≤ v.nickname)) chan.users),
        hlk] at hany
      simp only [Option.map_some', Option.getD_some] at hany
      rw [List.any_eq_true] at hany
      obtain ⟨u, hu, hnick⟩ := hany
      rw [mem_sortLeBy] at hu
      rw [List.mem_map]
      refine ⟨(ch, chan), ?_, rfl⟩
      rw [List.mem_filter]
      exact ⟨alookup_mem _ _ _ hlk, List.any_eq_true.2 ⟨u, hu, hnick⟩⟩
  · intro hm
    rw [List.mem_map] at hm
    obtain ⟨p, hp, hfst⟩ := hm
    rw [List.mem_filter] at hp
    obtain ⟨hpin, hq⟩ := hp
    have hlk : alookup c.chanmap ch = some p.2 := by
      have h0 := alookup_of_mem_nodup c.chanmap p.1 p.2 hnd hpin
      rwa [hfst] at h0
    rw [List.mem_filter]
    constructor
    · rw [mem_sortLeBy]
      exact hfst ▸ List.mem_map_of_mem Prod.fst hpin
    · rw [alookup_map_snd c.chanmap
        (fun chan => sortLeBy (fun u v => decide (u.nickname ≤ v.nickname)) chan.users),
        hlk]
      simp only [Option.map_some', Option.getD_some]
      rw [List.any_eq_true] at hq ⊢
      obtain ⟨u, hu, hnick⟩ := hq
      exact ⟨u, (mem_sortLeBy _ _ _).2 hu, hnick⟩

/-- Counterexample to C6 as stated: a reachable client whose chanmap has
user `udoe` in `#a` but whose cached views predate that (no `sync` since)
returns a `Broadcast::Quit` whose channels field is `[]`, although the
channels the user was a member of at arrival are `["#a"]`. -/
theorem claim_C6_counterexample :
    claimedQuitChannels c6Client "udoe" = ["#a"] ∧
    c6Evs = [.Broadcast (.Quit c6User none [] 0)] ∧
    ([] : List String) ≠ ["#a"] := by
  refine ⟨by decide, by decide, by decide⟩

/-- C6 amended: the QUIT handler removes the user from the user set of
every channel in chanmap and returns the single event
`Broadcast::Quit { channels }` where `channels` is computed from the cached
`channels`/`users` views (the state of the last `sync`); whenever those
views are in sync with chanmap, that list contains exactly the channels the
user was a member of at the time the QUIT arrived. -/
theorem claim_C6_amended :
    (∀ (c : Client) (comment : Option String) (user : User) (t : Nat),
      c.receive (quitMsg comment user t) =
        .ok ([.Broadcast (.Quit user comment (c.user_channels user.nickname) t)],
          { c with chanmap := c.chanmap.map (fun p =>
              (p.1, { p.2 with users := usersRemove p.2.users user })) })) ∧
    (∀ (c : Client) (nick : String),
      (c.chanmap.map Prod.fst).Nodup →
      c.channels = c.syncChannelsOf →
      c.users = c.syncUsersOf →
      ∀ ch, ch ∈ c.user_channels nick ↔ ch ∈ claimedQuitChannels c nick) :=
  ⟨quit_receive_eq, user_channels_synced⟩

/-- Witness for the amended C6: the synced variant of the scenario client
reports `#a` both in the broadcast channel list and in the membership at
arrival. -/
theorem claim_C6_amended_witness :
    ("#a" ∈ c6Synced.user_channels "udoe" ↔
      "#a" ∈ claimedQuitChannels c6Synced "udoe") ∧
    "#a" ∈ c6Synced.user_channels "udoe" :=
  ⟨claim_C6_amended.2 c6Synced "udoe" (by decide) (by decide) (by decide) "#a",
   by decide⟩

/-! ### C5 — labels are consumed at most once (confirmed) -/

theorem resolveContext_label_gone (c : Client) (bt : Option String)
    (L : String) (hnd : (c.labels.map Prod.fst).Nodup) :
    alookup (Client.resolveContext c none (some L) bt).2 L = none ∧
    ((Client.resolveContext c none (some L) bt).2.map Prod.fst).Nodup := by
  unfold Client.resolveContext
  rcases hcl : alookup c.labels L with _ | ctx
  · constructor
    · simp [hcl]
    · simpa [hcl] using hnd
  · constructor
    · simp [hcl, alookup_aerase_self _ _ hnd]
    · simpa [hcl] using aerase_keys_nodup _ _ hnd

/-- C5: `send` under labeled-response stores `(label, Context)` in the label
table; the first inbound message carrying tag `label=L` removes the `L`
entry during context resolution, and processing can only remove label
entries, never add them — so after any receive of a message tagged with `L`
the table has no entry for `L`, at most one inbound message resolves its
context via `L`, and a later lookup that finds no outstanding label falls
back to exactly the resolution an untagged message would get. -/
theorem claim_C5_label_consumed_once :
    (∀ (c : Client) (buffer : String) (msg : Encoded) (L : String),
      c.supports_labels = true →
      (c.send buffer msg L).labels = ainsert c.labels L (Context.new msg buffer)) ∧
    (∀ (c : Client) (m : Encoded) (L : String) (evs : List Event) (c' : Client),
      (removeTag "label" m.tags).1 = some L →
      (c.labels.map Prod.fst).Nodup →
      c.receive m = .ok (evs, c') →
      alookup c'.labels L = none ∧
      (∀ K v, alookup c'.labels K = some v → alookup c.labels K = some v)) ∧
    (∀ (c : Client) (bt : Option String) (L : String),
      alookup c.labels L = none →
      Client.resolveContext c none (some L) bt =
        Client.resolveContext c none none bt) := by
  refine ⟨?_, ?_, ?_⟩
  · intro c buffer msg L hs
    simp [Client.send, hs, Client.push]
  · intro c m L evs c' hL hnd hok
    have hframe := receive_frame c m evs c' hok
    refine ⟨?_, fun K v hv => ((hframe.2.1 hnd).2) K v hv⟩
    unfold Client.receive at hok
    simp only [stop_reroute, Bool.false_eq_true, if_false] at hok
    split at hok
    · exact absurd hok (by simp)
    · rename_i events c1 heq
      simp only [Except.ok.injEq, Prod.mk.injEq] at hok
      obtain ⟨-, h2⟩ := hok
      subst h2
      rw [Client.handle, Client.handleF, hL] at heq
      have hd := dispatchWith_frame (Client.handleF m.tags.length)
        (fun cr mr ctxr evsr cr' hr => handleF_frame _ cr mr ctxr evsr cr' hr)
        _ _ _ _ _ _ heq
      have hgone := resolveContext_label_gone c
        (removeTag "batch" (removeTag "label" m.tags).2).1 L hnd
      cases hv : alookup c1.labels L with
      | none => rfl
      | some v =>
        have hsub := (hd.2.1 hgone.2).2 L v hv
        exact absurd hsub (by simp [hgone.1])
  · intro c bt L hnone
    simp [Client.resolveContext, hnone]

/-- Witness for C5: a concrete outstanding label `42` is stored by `send`,
consumed by the first tagged inbound message, and absent afterwards. -/
theorem claim_C5_witness :
    ((c5Sender.send "buf" c5Out "42").labels =
      ainsert c5Sender.labels "42" (Context.new c5Out "buf")) ∧
    (alookup c5After.labels "42" = none) ∧
    (Client.resolveContext c5Drained none (some "42") none =
      Client.resolveContext c5Drained none none none) := by
  refine ⟨claim_C5_label_consumed_once.1 c5Sender "buf" c5Out "42" rfl, ?_, ?_⟩
  · exact (claim_C5_label_consumed_once.2.1 c5Labelled c5In "42" c5Evs c5After
      rfl (by decide) rfl).1
  · exact claim_C5_label_consumed_once.2.2 c5Drained none "42" rfl

/-! ### C8 — SASL PLAIN parameter and EXTERNAL parameter -/



/-- C8: for a SASL Plain configuration with username `u` and resolved
password `p`, `Sasl::param` returns the standard base64 encoding of
`u ++ "\x00" ++ u ++ "\x00" ++ p`; in particular username `"bob"` with
password `"hunter2"` yields `"Ym9iAGJvYgBodW50ZXIy"`; for every SASL
External configuration it returns `"+"`. -/
theorem claim_C8_sasl_param :
    (∀ (u p : String) (pf pc : Option String),
      Sasl.param (.Plain u (some p) pf pc) =
        some (base64Encode (u ++ "\x00" ++ u ++ "\x00" ++ p))) ∧
    Sasl.param saslBob = some "Ym9iAGJvYgBodW50ZXIy" ∧
    (∀ (cert : String) (key : Option String),
      Sasl.param (.External cert key) = some "+") := by
  refine ⟨fun u p pf pc => rfl, by decide, fun cert key => rfl⟩

/-! ### C9 — nickname before resolution -/

/-- C9: while `resolved_nick` is unset, `Client::nickname` returns the
configured nickname, so events built during registration carry the
configured nickname. -/
theorem claim_C9_nickname_before_resolution (c : Client)
    (h : c.resolved_nick = none) : c.nickname = c.config.nickname := by
  simp [Client.nickname, h]

/-- Witness for C9 at a concrete client. -/
theorem claim_C9_witness :
    ({ config := { nickname := "cfgnick" } } : Client).nickname = "cfgnick" :=
  claim_C9_nickname_before_resolution { config := { nickname := "cfgnick" } } rfl

/-! ### C10 — Sasl::param panics exactly on Plain without password -/

/-- C10: `Sasl::param` panics (modelled: returns `none`) exactly on a
`Plain` configuration whose resolved `password` is `None` — for example when
only `password_file` or `password_command` is set — and is total (returns
`some`) on every other `Sasl` value. -/
theorem claim_C10_sasl_param_panic :
    (∀ (u : String) (pf pc : Option String),
      Sasl.param (.Plain u none pf pc) = none) ∧
    (∀ s : Sasl, ¬ s.panicsInParam → (Sasl.param s).isSome) := by
  constructor
  · intro u pf pc
    rfl
  · intro s hs
    cases s with
    | Plain u p pf pc =>
      cases p with
      | none => exact absurd rfl hs
      | some pw => rfl
    | External cert key => rfl

/-- Witness for C10: the second part applied at a concrete non-panicking
value. -/
theorem claim_C10_witness :
    ¬ Sasl.panicsInParam saslBob ∧ (Sasl.param saslBob).isSome :=
  ⟨by decide, claim_C10_sasl_param_panic.2 saslBob (by decide)⟩

/-! ### C7 — CAP NEW and listed_caps duplicates (corrected)

The CAP NEW arm ends with `self.listed_caps.extend(new_caps)` with no
membership check, so re-advertising an already-listed capability duplicates
its entry. -/



/-- Counterexample to C7 as stated: with `batch` already listed, one CAP NEW
advertising `batch` leaves `listed_caps = ["batch", "batch"]`, which has a
duplicate entry for `batch`. -/
theorem claim_C7_counterexample :
    c7Client.listed_caps = ["batch"] ∧
    c7After = ["batch", "batch"] ∧ ¬ c7After.Nodup := by
  refine ⟨rfl, by decide, by decide⟩

/-- C7 amended: processing an inbound CAP NEW appends every advertised
capability to `listed_caps` unconditionally — `listed_caps` becomes the old
list followed by the advertised list — so re-advertising an already-listed
capability duplicates its entry rather than leaving the list duplicate-free
(membership itself is idempotent: a capability is listed iff it occurs at
least once). -/
theorem claim_C7_amended (c : Client) (tgt : Option String)
    (a b : Option String) (u : Option User) (t : Nat) (capsStr : String)
    (hab : (b <|> a) = some capsStr) :
    (c.receive (capMsg "NEW" tgt a b u t)).map (fun r => r.2.listed_caps) =
      .ok (c.listed_caps ++ splitSpaces capsStr) := by
  simp only [Client.receive, Client.handle, stop_reroute, capMsg,
    List.length_nil, Client.handleF, removeTag, Client.resolveContext, Client.dispatchWith,
    Client.batchContext, Option.none_bind, Client.handleCmd,
    Option.map_none', Option.getD_none, Bool.false_and, Bool.and_self,
    if_false, hab]
  simp [Client.capNew, Client.single, Client.pushAll, Client.push, hab]
  split <;> simp [Client.pushAll, Except.map]

/-- Witness for the amended C7 at the concrete duplicate scenario. -/
theorem claim_C7_amended_witness :
    (c7Client.receive c7Msg).map (fun r => r.2.listed_caps) =
      .ok (c7Client.listed_caps ++ splitSpaces "batch") :=
  claim_C7_amended c7Client none (some "batch") none none 0 "batch" rfl

/-! ### C3 — alternative nicknames on ERR_NICKNAMEINUSE (corrected)

After the index steps past the last alternative it is cleared, but the
cleared state is the same as the initial one, so the next numeric restarts
the cycle at `alt_nicks[0]`: NICK commands do not stop permanently. -/



/-- Counterexample to C3 as stated: after the third 433 the alternatives
are exhausted (`alt_nick = none`, the step sent no NICK, only
`NICK al_`/`NICK al__` were ever sent, the nick is still unresolved), yet a
fourth 433 sends `NICK al_` again — a further NICK after exhaustion. -/
theorem claim_C3_counterexample :
    c3After3.alt_nick = none ∧ c3After3.resolved_nick = none ∧
    c3After3.sent = [.NickMsg "al_", .NickMsg "al__"] ∧
    c3After4.sent = c3After3.sent ++ [Outbound.NickMsg "al_"] := by
  refine ⟨by decide, by decide, by decide, by decide⟩

/-- C3 amended: before nick resolution, each ERR_NICKNAMEINUSE or
ERR_ERRONEUSNICKNAME (received outside rerouting) advances the alternative
index by one step — starting at 0, clearing it when stepping past the last
alternative — and sends NICK for the newly indexed alternative when one
exists; the numeric that exhausts the list sends no NICK, but the state then
equals the initial one, so the next such numeric restarts the cycle at
`alt_nicks[0]` (NICK commands do not stop permanently).  Once
`resolved_nick` is set these numerics leave the client unchanged. -/
theorem claim_C3_amended (c : Client) (num : NumericCmd) (args : List String)
    (u : Option User) (t : Nat)
    (hnum : num = .ERR_NICKNAMEINUSE ∨ num = .ERR_ERRONEUSNICKNAME)
    (hrr : c.reroute_responses_to = none) :
    c.receive (numMsg num args u t) =
      .ok ([.Single (numMsg num args u t) c.nickname],
        if c.resolved_nick.isNone then altNickPost c else c) := by
  obtain ⟨cfg, sent, altn, resn, chm, chs, us, lbl, bat, rrt, step, lc, sl,
    sa, sacc, sej, srm, rrc, iw, ic, clk⟩ := c
  simp only at hrr
  subst hrr
  rcases hnum with rfl | rfl <;>
  cases resn <;>
  rcases h2 : (altNickAdvance altn cfg.alt_nicks).bind
      (fun i => cfg.alt_nicks[i]?) with _ | nick2 <;>
  simp [Client.receive, Client.handle, stop_reroute, numMsg,
    Client.handleF, removeTag, Client.resolveContext, Client.dispatchWith,
    Client.batchContext, Client.handleCmd, Client.single, Client.push,
    Client.nickname, altNickPost, h2]

/-- Witness for the amended C3 at the concrete scenario client. -/
theorem claim_C3_amended_witness :
    c3Client.receive c3Msg =
      .ok ([.Single c3Msg c3Client.nickname],
        if c3Client.resolved_nick.isNone then altNickPost c3Client
        else c3Client) :=
  claim_C3_amended c3Client .ERR_NICKNAMEINUSE [] none 0 (Or.inl rfl) rfl


/-! ### C1 — batch accumulation and close semantics -/

theorem receive_batched_no_events (c : Client) (m : Encoded) (bt : String)
    (evs : List Event) (c' : Client)
    (hnb : m.command.isBATCH = false)
    (hbt : batchTagOf m = some bt)
    (hopen : (alookup c.batches bt).isSome = true)
    (h : c.receive m = .ok (evs, c')) : evs = [] := by
  unfold batchTagOf at hbt
  unfold Client.receive at h
  simp only [stop_reroute, Bool.false_eq_true, if_false] at h
  split at h
  · exact absurd h (by simp)
  · rename_i events c1 heq
    simp only [Except.ok.injEq, Prod.mk.injEq] at h
    obtain ⟨h1, -⟩ := h
    subst h1
    rw [Client.handle, Client.handleF] at heq
    rw [hbt] at heq
    unfold Client.dispatchWith at heq
    dsimp only at heq
    split at heq
    · rename_i batchArg params hcmd
      rw [hcmd] at hnb
      simp [Command.isBATCH] at hnb
    · split at heq
      · exact absurd heq (by simp)
      · rename_i res ev2 c2 hrec
        have hframe := handleF_frame _ _ _ _ _ _ hrec
        have hks := hframe.2.2 hnb
        have hopen2 : (alookup c2.batches bt).isSome = true := by
          rw [hks bt]; exact hopen
        split at heq
        · simp only [Except.ok.injEq, Prod.mk.injEq] at heq
          exact heq.1.symm
        · rename_i hnone
          rw [hnone] at hopen2
          exact absurd hopen2 (by simp)

theorem dispatch_batched_append (fuel : Nat) (c : Client) (m : Encoded)
    (ctx : Option Context) (bt : String) (events : List Event) (c1 : Client)
    (b : Batch)
    (hnb : m.command.isBATCH = false)
    (hrec : Client.handleF fuel c m ctx = .ok (events, c1))
    (hb : alookup c1.batches bt = some b) :
    Client.dispatchWith (Client.handleF fuel) c m ctx (some bt) =
      .ok ([], { c1 with batches := aupdate c1.batches bt (fun x =>
        { x with events := x.events ++ events }) }) ∧
    alookup (aupdate c1.batches bt (fun x =>
      { x with events := x.events ++ events })) bt =
      some { b with events := b.events ++ events } := by
  constructor
  · unfold Client.dispatchWith
    split
    · rename_i batchArg params hcmd
      rw [hcmd] at hnb
      simp [Command.isBATCH] at hnb
    · dsimp only
      rw [hrec]
      dsimp only
      rw [hb]
  · rw [alookup_aupdate_self, hb]
    rfl

theorem receive_close_top (c : Client) (m : Encoded) (batchArg : String)
    (params : List String) (refChars : List Char) (finished : Batch)
    (evs : List Event) (c' : Client)
    (hcmd : m.command = .BATCH batchArg params)
    (harg : batchArg.toList = List.cons '-' refChars)
    (hbt : batchTagOf m = none)
    (hopen : alookup c.batches (String.mk refChars) = some finished)
    (hnd : (c.batches.map Prod.fst).Nodup)
    (h : c.receive m = .ok (evs, c')) :
    evs = finished.events ∧
    alookup c'.batches (String.mk refChars) = none := by
  unfold batchTagOf at hbt
  unfold Client.receive at h
  simp only [stop_reroute, Bool.false_eq_true, if_false] at h
  split at h
  · exact absurd h (by simp)
  · rename_i events c1 heq
    simp only [Except.ok.injEq, Prod.mk.injEq] at h
    obtain ⟨h1, h2⟩ := h
    subst h1
    subst h2
    rw [Client.handle, Client.handleF] at heq
    rw [hbt] at heq
    unfold Client.dispatchWith at heq
    dsimp only at heq
    rw [hcmd] at heq
    dsimp only at heq
    rw [harg] at heq
    dsimp only at heq
    rw [if_neg (by decide), if_pos rfl] at heq
    rw [hopen] at heq
    dsimp only at heq
    simp only [Except.ok.injEq, Prod.mk.injEq] at heq
    obtain ⟨he1, he2⟩ := heq
    subst he2
    refine ⟨he1.symm, ?_⟩
    exact alookup_aerase_self _ _ hnd

theorem receive_close_unknown (c : Client) (m : Encoded) (batchArg : String)
    (params : List String) (refChars : List Char)
    (evs : List Event) (c' : Client)
    (hcmd : m.command = .BATCH batchArg params)
    (harg : batchArg.toList = List.cons '-' refChars)
    (hnone : alookup c.batches (String.mk refChars) = none)
    (h : c.receive m = .ok (evs, c')) : evs = [] := by
  unfold Client.receive at h
  simp only [stop_reroute, Bool.false_eq_true, if_false] at h
  split at h
  · exact absurd h (by simp)
  · rename_i events c1 heq
    simp only [Except.ok.injEq, Prod.mk.injEq] at h
    obtain ⟨h1, -⟩ := h
    subst h1
    rw [Client.handle, Client.handleF] at heq
    unfold Client.dispatchWith at heq
    dsimp only at heq
    rw [hcmd] at heq
    dsimp only at heq
    rw [harg] at heq
    dsimp only at heq
    rw [if_neg (by decide), if_pos rfl] at heq
    rw [hnone] at heq
    dsimp only at heq
    simp only [Except.ok.injEq, Prod.mk.injEq] at heq
    exact heq.1.symm

theorem receive_close_nested (c : Client) (m : Encoded) (batchArg : String)
    (params : List String) (refChars : List Char) (parentKey : String)
    (finished parent : Batch) (evs : List Event) (c' : Client)
    (hcmd : m.command = .BATCH batchArg params)
    (harg : batchArg.toList = List.cons '-' refChars)
    (hbt : batchTagOf m = some parentKey)
    (hne : parentKey ≠ String.mk refChars)
    (hfin : alookup c.batches (String.mk refChars) = some finished)
    (hpar : alookup c.batches parentKey = some parent)
    (hnd : (c.batches.map Prod.fst).Nodup)
    (h : c.receive m = .ok (evs, c')) :
    evs = [] ∧
    alookup c'.batches parentKey =
      some { parent with events := parent.events ++ finished.events } ∧
    alookup c'.batches (String.mk refChars) = none := by
  unfold batchTagOf at hbt
  unfold Client.receive at h
  simp only [stop_reroute, Bool.false_eq_true, if_false] at h
  split at h
  · exact absurd h (by simp)
  · rename_i events c1 heq
    simp only [Except.ok.injEq, Prod.mk.injEq] at h
    obtain ⟨h1, h2⟩ := h
    subst h1
    subst h2
    rw [Client.handle, Client.handleF] at heq
    rw [hbt] at heq
    unfold Client.dispatchWith at heq
    dsimp only at heq
    rw [hcmd] at heq
    dsimp only at heq
    rw [harg] at heq
    dsimp only at heq
    rw [if_neg (by decide), if_pos rfl] at heq
    rw [hfin] at heq
    dsimp only at heq
    rw [alookup_aerase_ne c.batches parentKey (String.mk refChars) hne,
      hpar] at heq
    dsimp only at heq
    simp only [Except.ok.injEq, Prod.mk.injEq] at heq
    obtain ⟨he1, he2⟩ := heq
    subst he2
    refine ⟨he1.symm, ?_, ?_⟩
    · rw [alookup_aupdate_self,
        alookup_aerase_ne c.batches parentKey (String.mk refChars) hne, hpar]
      rfl
    · rw [alookup_aupdate_ne _ _ _ _ (fun hh => hne hh.symm)]
      exact alookup_aerase_self _ _ hnd

theorem receive_open_batch (c : Client) (m : Encoded) (batchArg : String)
    (params : List String) (refChars : List Char)
    (evs : List Event) (c' : Client)
    (hcmd : m.command = .BATCH batchArg params)
    (harg : batchArg.toList = List.cons '+' refChars)
    (h : c.receive m = .ok (evs, c')) :
    evs = [] ∧
    ∃ b : Batch, alookup c'.batches (String.mk refChars) = some b ∧
      b.events = [] := by
  unfold Client.receive at h
  simp only [stop_reroute, Bool.false_eq_true, if_false] at h
  split at h
  · exact absurd h (by simp)
  · rename_i events c1 heq
    simp only [Except.ok.injEq, Prod.mk.injEq] at h
    obtain ⟨h1, h2⟩ := h
    subst h1
    subst h2
    rw [Client.handle, Client.handleF] at heq
    unfold Client.dispatchWith at heq
    dsimp only at heq
    rw [hcmd] at heq
    dsimp only at heq
    rw [harg] at heq
    dsimp only at heq
    rw [if_pos rfl] at heq
    simp only [Except.ok.injEq, Prod.mk.injEq] at heq
    obtain ⟨he1, he2⟩ := heq
    subst he2
    exact ⟨he1.symm, Batch.new _, alookup_ainsert_self _ _ _, rfl⟩

/-- C1: batch semantics of `receive`.  (1) A non-BATCH message tagged with an
open batch reference contributes no events to its own `receive` call; (2) the
events its handling produced are instead appended, in arrival order, to the
tagged batch's accumulator; (3) an untagged `BATCH -ref` of an open batch
returns exactly the events accumulated under it and closes it; (4) closing an
unknown reference returns no events; (5) a nested close (a `BATCH -ref`
itself tagged with an open parent batch) returns no events and drains the
child's accumulated events, in order, onto the parent's accumulator; (6)
`BATCH +ref` opens a batch with an empty accumulator. -/
theorem claim_C1_batch_semantics :
    (∀ (c : Client) (m : Encoded) (bt : String) (evs : List Event) (c' : Client),
      m.command.isBATCH = false → batchTagOf m = some bt →
      (alookup c.batches bt).isSome = true →
      c.receive m = .ok (evs, c') → evs = []) ∧
    (∀ (fuel : Nat) (c : Client) (m : Encoded) (ctx : Option Context)
      (bt : String) (events : List Event) (c1 : Client) (b : Batch),
      m.command.isBATCH = false →
      Client.handleF fuel c m ctx = .ok (events, c1) →
      alookup c1.batches bt = some b →
      Client.dispatchWith (Client.handleF fuel) c m ctx (some bt) =
        .ok ([], { c1 with batches := aupdate c1.batches bt (fun x =>
          { x with events := x.events ++ events }) }) ∧
      alookup (aupdate c1.batches bt (fun x =>
        { x with events := x.events ++ events })) bt =
        some { b with events := b.events ++ events }) ∧
    (∀ (c : Client) (m : Encoded) (batchArg : String) (params : List String)
      (refChars : List Char) (finished : Batch) (evs : List Event) (c' : Client),
      m.command = .BATCH batchArg params →
      batchArg.toList = List.cons '-' refChars →
      batchTagOf m = none →
      alookup c.batches (String.mk refChars) = some finished →
      (c.batches.map Prod.fst).Nodup →
      c.receive m = .ok (evs, c') →
      evs = finished.events ∧
      alookup c'.batches (String.mk refChars) = none) ∧
    (∀ (c : Client) (m : Encoded) (batchArg : String) (params : List String)
      (refChars : List Char) (evs : List Event) (c' : Client),
      m.command = .BATCH batchArg params →
      batchArg.toList = List.cons '-' refChars →
      alookup c.batches (String.mk refChars) = none →
      c.receive m = .ok (evs, c') → evs = []) ∧
    (∀ (c : Client) (m : Encoded) (batchArg : String) (params : List String)
      (refChars : List Char) (parentKey : String) (finished parent : Batch)
      (evs : List Event) (c' : Client),
      m.command = .BATCH batchArg params →
      batchArg.toList = List.cons '-' refChars →
      batchTagOf m = some parentKey →
      parentKey ≠ String.mk refChars →
      alookup c.batches (String.mk refChars) = some finished →
      alookup c.batches parentKey = some parent →
      (c.batches.map Prod.fst).Nodup →
      c.receive m = .ok (evs, c') →
      evs = [] ∧
      alookup c'.batches parentKey =
        some { parent with events := parent.events ++ finished.events } ∧
      alookup c'.batches (String.mk refChars) = none) ∧
    (∀ (c : Client) (m : Encoded) (batchArg : String) (params : List String)
      (refChars : List Char) (evs : List Event) (c' : Client),
      m.command = .BATCH batchArg params →
      batchArg.toList = List.cons '+' refChars →
      c.receive m = .ok (evs, c') →
      evs = [] ∧
      ∃ b : Batch, alookup c'.batches (String.mk refChars) = some b ∧
        b.events = []) :=
  ⟨receive_batched_no_events, dispatch_batched_append, receive_close_top,
    receive_close_unknown, receive_close_nested, receive_open_batch⟩

set_option maxRecDepth 4000 in
/-- Witness for C1 at the concrete scenario client: the tagged message
contributes no events, and the untagged close returns exactly the
accumulated event and removes the batch. -/
theorem claim_C1_witness :
    c1TagRes.1 = [] ∧
    c1CloseRes.1 = c1Batch.events ∧
    alookup c1CloseRes.2.batches (String.mk ['r', 'e', 'f']) = none := by
  have h1 : c1Client.receive c1Tagged = .ok (c1TagRes.1, c1TagRes.2) := rfl
  have h3 : c1Client.receive c1Close = .ok (c1CloseRes.1, c1CloseRes.2) := rfl
  have hc := claim_C1_batch_semantics.2.2.1 c1Client c1Close "-ref" []
    (List.cons 'r' ['e', 'f']) c1Batch c1CloseRes.1 c1CloseRes.2 rfl
    (by decide) (by decide) (by decide) (by decide) h3
  exact ⟨claim_C1_batch_semantics.1 c1Client c1Tagged "ref" c1TagRes.1
    c1TagRes.2 rfl (by decide) (by decide) h1, hc.1, hc.2⟩

end Halloy
